import Mathlib

/-!
Verification of the record filter/sort/bulk-edit engine shared by the two GUI
tools of this repository (`monster_manager.py` and `advanced_item_editor.py`).

The Python data is JSON-shaped: a record is an ordered mapping from field name
to a value that is a string, a number, a boolean, null, or a list of strings
(the shapes the spec's data model lists).  Numbers are modelled as rationals
(the concrete values appearing in the tools are short decimals, which ℚ
represents exactly).  Python operations that can raise (`float(...)`,
comparing a number with a string, iterating a non-iterable) are modelled in
the `Except String` monad, the string naming the exception class.

Modelling notes (none of the proved theorems depend on these approximations):
- `str.lower` / `str.strip` are modelled character-wise (ASCII case mapping);
- `str()` of a number is rendered as `<num>.0` for integral values and as a
  fraction otherwise; `str()` of a list is the comma-joined entries;
- `float(...)`/`int(...)` string parsing accepts sign, digits and one decimal
  point (no exponents, underscores or `inf`/`nan` literals);
- `list(set(...))` returns its elements in an unspecified order in Python;
  it is modelled by `List.dedup`, and every theorem about it is stated
  order-independently (via `toFinset` / `Nodup`);
- CPython's `list.sort` is a stable sort; it is modelled by a stable
  insertion sort (`sortS`), which computes the same list.
-/

/-- A JSON-ish field value, as the two GUI tools manipulate them. -/
inductive Value where
  | vStr (s : String)
  | vNum (q : ℚ)
  | vBool (b : Bool)
  | vNull
  | vList (xs : List String)
deriving DecidableEq

/-- A record: an ordered mapping from field name to value (a Python dict). -/
def Record := List (String × Value)

instance : DecidableEq Record := by
  unfold Record
  infer_instance

/-- `d.get(k)`: first binding of the key, if any. -/
def recGet (r : Record) (k : String) : Option Value :=
  match r with
  | [] => none
  | (k', v) :: rest => if k' = k then some v else recGet rest k

/-- `d.get(k, dflt)`. -/
def recGetD (r : Record) (k : String) (dflt : Value) : Value :=
  (recGet r k).getD dflt

/-- `d[k] = v`: replace in place if the key exists, else append (dict order). -/
def recSet (r : Record) (k : String) (v : Value) : Record :=
  match r with
  | [] => [(k, v)]
  | (k', v') :: rest => if k' = k then (k, v) :: rest else (k', v') :: recSet rest k v

/-- `del d[k]` (no error if absent; the sources guard with `in`). -/
def recRemove (r : Record) (k : String) : Record :=
  r.filter (fun kv => kv.1 ≠ k)

/-- Python truthiness of a value (`''`, `0`, `False`, `None`, `[]` are falsy). -/
def isFalsy : Value → Bool
  | .vStr s => s.isEmpty
  | .vNum q => decide (q = 0)
  | .vBool b => !b
  | .vNull => true
  | .vList xs => xs.isEmpty

/-- `str.strip()` on the character list: drop whitespace at both ends. -/
def trimChars (cs : List Char) : List Char :=
  ((cs.dropWhile Char.isWhitespace).reverse.dropWhile Char.isWhitespace).reverse

/-- `str.strip()`. -/
def strTrim (s : String) : String :=
  String.mk (trimChars s.toList)

/-- `str.lower()` (ASCII case mapping). -/
def strLower (s : String) : String :=
  String.mk (s.toList.map Char.toLower)

/-- Lexicographic comparison of character lists: Python `a <= b` on strings. -/
def charListLe : List Char → List Char → Bool
  | [], _ => true
  | _ :: _, [] => false
  | a :: as, b :: bs => if a = b then charListLe as bs else decide (a < b)

/-- Python `a <= b` on strings. -/
def strLeB (a b : String) : Bool :=
  charListLe a.toList b.toList

/-- `s.split(c)` on character lists (Python keeps empty chunks). -/
def splitOnChar (c : Char) : List Char → List (List Char)
  | [] => [[]]
  | x :: xs =>
    if x = c then [] :: splitOnChar c xs
    else
      match splitOnChar c xs with
      | [] => [[x]]
      | g :: gs => (x :: g) :: gs

/-- Is `n` a prefix of the second list? -/
def listPre (n : List Char) (h : List Char) : Bool :=
  match n, h with
  | [], _ => true
  | _ :: _, [] => false
  | a :: as, b :: bs => a == b && listPre as bs

/-- Is `n` a contiguous sublist of `h`?  (Python `n in h` on strings.) -/
def subl (n : List Char) (h : List Char) : Bool :=
  match h with
  | [] => n.isEmpty
  | c :: rest => listPre n (c :: rest) || subl n rest

/-- Python `needle in hay` for strings. -/
def strContains (hay needle : String) : Bool :=
  subl needle.toList hay.toList

/-- Comma-space join, as `str()` shows list entries. -/
def joinCommaSpace : List String → String
  | [] => ""
  | [x] => x
  | x :: rest => x ++ ", " ++ joinCommaSpace rest

/-- `str()` of a value (see the modelling notes in the header). -/
def pyStr : Value → String
  | .vStr s => s
  | .vNum q => if q.den = 1 then toString q.num ++ ".0" else toString q.num ++ "/" ++ toString q.den
  | .vBool b => if b then "True" else "False"
  | .vNull => "None"
  | .vList xs => joinCommaSpace xs

/-- Numeric value of a digit run. -/
def digitsVal (cs : List Char) : ℕ :=
  cs.foldl (fun n c => n * 10 + (c.toNat - 48)) 0

/-- ℚ from ℤ, built with `Rat.divInt` (no field structure involved). -/
def ratOfInt (i : ℤ) : ℚ :=
  Rat.divInt i 1

/-- Python `float(s)` on a string: optional surrounding whitespace, optional
sign, digits with at most one decimal point (restricted grammar, see header). -/
def parseFloat? (s : String) : Option ℚ :=
  let cs := trimChars s.toList
  let signed : ℤ × List Char :=
    match cs with
    | '-' :: rest => (-1, rest)
    | '+' :: rest => (1, rest)
    | _ => (1, cs)
  match splitOnChar '.' signed.2 with
  | [ip] =>
      if ip ≠ [] ∧ ip.all Char.isDigit then
        some (Rat.divInt (signed.1 * (digitsVal ip : ℤ)) 1)
      else none
  | [ip, fp] =>
      if (ip ≠ [] ∨ fp ≠ []) ∧ ip.all Char.isDigit ∧ fp.all Char.isDigit then
        some (Rat.divInt
          (signed.1 * ((digitsVal ip : ℤ) * (Int.ofNat ((10 : ℕ) ^ fp.length)) + (digitsVal fp : ℤ)))
          (Int.ofNat ((10 : ℕ) ^ fp.length)))
      else none
  | _ => none

/-- Python `int(s)` on a string: optional whitespace, sign, digits only. -/
def parseInt? (s : String) : Option ℤ :=
  let cs := trimChars s.toList
  let signed : ℤ × List Char :=
    match cs with
    | '-' :: rest => (-1, rest)
    | '+' :: rest => (1, rest)
    | _ => (1, cs)
  if signed.2 ≠ [] ∧ signed.2.all Char.isDigit then
    some (signed.1 * (digitsVal signed.2 : ℤ))
  else none

/-- Truncation toward zero, as Python `int(float)`. -/
def ratTrunc (q : ℚ) : ℤ :=
  q.num.tdiv q.den

/-- Python `float(value)` on an arbitrary value. -/
def pyFloatOfValue : Value → Except String ℚ
  | .vNum q => .ok q
  | .vBool b => .ok (if b then 1 else 0)
  | .vStr s =>
      match parseFloat? s with
      | some q => .ok q
      | none => .error "ValueError"
  | .vNull => .error "TypeError"
  | .vList _ => .error "TypeError"

/-- Python `int(value)` on an arbitrary value. -/
def pyIntOfValue : Value → Except String ℤ
  | .vNum q => .ok (ratTrunc q)
  | .vBool b => .ok (if b then 1 else 0)
  | .vStr s =>
      match parseInt? s with
      | some i => .ok i
      | none => .error "ValueError"
  | .vNull => .error "TypeError"
  | .vList _ => .error "TypeError"

/-- Python `==` between two values (numbers and booleans compare numerically;
values of unrelated types compare unequal without raising). -/
def pyEq : Value → Value → Bool
  | .vStr a, .vStr b => a = b
  | .vNum a, .vNum b => a = b
  | .vBool a, .vBool b => a = b
  | .vBool a, .vNum b => decide ((if a then (1 : ℚ) else 0) = b)
  | .vNum a, .vBool b => decide (a = (if b then (1 : ℚ) else 0))
  | .vNull, .vNull => true
  | .vList a, .vList b => a = b
  | _, _ => false

/-- A numeric value for an order comparison against a float; any other type
raises `TypeError` in Python 3. -/
def numForCompare : Value → Except String ℚ
  | .vNum q => .ok q
  | .vBool b => .ok (if b then 1 else 0)
  | _ => .error "TypeError"

/-- Sequential filter in the exception monad (a Python list comprehension:
the first raising element aborts the whole comprehension). -/
def filterE (p : α → Except String Bool) : List α → Except String (List α)
  | [] => .ok []
  | a :: as =>
    match p a with
    | .error e => .error e
    | .ok b =>
      match filterE p as with
      | .error e => .error e
      | .ok l => .ok (if b then a :: l else l)

/-- Sequential map in the exception monad. -/
def mapE (f : α → Except String β) : List α → Except String (List β)
  | [] => .ok []
  | a :: as =>
    match f a with
    | .error e => .error e
    | .ok b =>
      match mapE f as with
      | .error e => .error e
      | .ok bs => .ok (b :: bs)

/-- The upper bound of a range filter: the dialog builds either a finite
float or `float(\x27inf\x27)`. -/
inductive UBound where
  | fin (q : ℚ)
  | posInf
deriving DecidableEq

/-- `v <= max_val` against a possibly-infinite upper bound. -/
def leUB (v : ℚ) : UBound → Bool
  | .fin x => decide (v ≤ x)
  | .posInf => true

/-- An advanced-filter criterion; `inactive` models a falsy criteria dict,
which `apply_filters_and_sort` skips. -/
inductive Criterion where
  | range (minV : ℚ) (maxV : UBound)
  | containsC (value : String)
  | equalsC (value : Value)
  | inactive
deriving DecidableEq

/-- Is the criterion applied at all? -/
def isActive : Criterion → Bool
  | .inactive => false
  | _ => true

/-- `min_val <= m.get(field, 0) <= max_val`: a non-numeric stored value makes
the comparison raise `TypeError`. -/
def rangeTest (f : String) (mn : ℚ) (mx : UBound) (r : Record) : Except String Bool :=
  match numForCompare (recGetD r f (.vNum 0)) with
  | .ok v => .ok (decide (mn ≤ v) && leUB v mx)
  | .error e => .error e

/-- `value in str(m.get(field, '')).lower()` with the criterion value lowered. -/
def containsTest (f : String) (c : String) (r : Record) : Bool :=
  strContains (strLower (pyStr (recGetD r f (.vStr "")))) (strLower c)

/-- `m.get(field) == value` (missing key yields Python `None`). -/
def equalsTest (f : String) (c : Value) (r : Record) : Bool :=
  pyEq (recGetD r f .vNull) c

/-- One criterion narrowing the surviving list. -/
def applyCriterion (f : String) (c : Criterion) (l : List Record) : Except String (List Record) :=
  match c with
  | .inactive => .ok l
  | .range mn mx => filterE (rangeTest f mn mx) l
  | .containsC v => .ok (l.filter (containsTest f v))
  | .equalsC v => .ok (l.filter (equalsTest f v))

/-- All active criteria, in mapping iteration order. -/
def criteriaStep : List (String × Criterion) → List Record → Except String (List Record)
  | [], l => .ok l
  | (f, c) :: rest, l =>
    match applyCriterion f c l with
    | .error e => .error e
    | .ok l' => criteriaStep rest l'

/-- The lowered searchable strings drawn from a tags value: a list yields its
entries, a string yields its characters (Python iterates it), anything else
raises `TypeError`. -/
def iterTagsLower : Value → Except String (List String)
  | .vList xs => .ok (xs.map strLower)
  | .vStr s => .ok (s.toList.map (fun c => strLower (String.singleton c)))
  | _ => .error "TypeError"

/-- The `searchable` list the monster tool builds per record:
`str(monster.get(f, '')).lower()` for name/type/alignment, extended with the
lowered tags when the key is present. -/
def monsterSearchables (r : Record) : Except String (List String) :=
  let base := ["name", "type", "alignment"].map (fun f => strLower (pyStr (recGetD r f (.vStr ""))))
  match recGet r "tags" with
  | none => .ok base
  | some v =>
    match iterTagsLower v with
    | .ok ts => .ok (base ++ ts)
    | .error e => .error e

/-- The quick-search step of `apply_filters_and_sort`: the query is stripped
and lowered; an empty query filters nothing. -/
def searchStep (q : String) (l : List Record) : Except String (List Record) :=
  let sq := strLower (strTrim q)
  if sq = "" then .ok l
  else
    filterE (fun r =>
      match monsterSearchables r with
      | .ok ss => .ok (ss.any (fun t => strContains t sq))
      | .error e => .error e) l

/-- The columns `apply_filters_and_sort` is willing to sort by. -/
def recognizedSortFields : List String :=
  ["name", "challenge_rating", "type", "size", "armor_class", "hit_points", "alignment"]

/-- A per-record sort key: a number for the numeric columns, a string otherwise. -/
inductive SKey where
  | num (q : ℚ)
  | str (s : String)
deriving DecidableEq

/-- Comparison on sort keys.  For a fixed column every key has the same
constructor, so the cross-constructor cases are never exercised; they are
fixed arbitrarily to keep the order total. -/
def skeyLe : SKey → SKey → Bool
  | .num a, .num b => decide (a ≤ b)
  | .str a, .str b => strLeB a b
  | .num _, .str _ => true
  | .str _, .num _ => false

/-- The `sort_key` closure of `apply_filters_and_sort`: numeric columns parse
with a literal `0` fallback on the empty string, all others compare as
lower-cased strings with `''` for a missing field. -/
def sortKeyFn (col : String) (r : Record) : Except String SKey :=
  let v := recGetD r col (.vStr "")
  if col = "challenge_rating" then
    if v = .vStr "" then .ok (.num 0)
    else
      match pyFloatOfValue v with
      | .ok q => .ok (.num q)
      | .error e => .error e
  else if col = "armor_class" ∨ col = "hit_points" then
    if v = .vStr "" then .ok (.num 0)
    else
      match pyIntOfValue v with
      | .ok i => .ok (.num (ratOfInt i))
      | .error e => .error e
  else .ok (.str (strLower (pyStr v)))

/-- Key order lifted to keyed records. -/
def pairLe (a b : SKey × Record) : Bool :=
  skeyLe a.1 b.1

/-- Stable insertion into a sorted list: the new element goes before the
first entry it compares ≤ to.  The later elements were inserted first, so an
element keeps its place ahead of every equal element that followed it. -/
def insertS (le : α → α → Bool) (x : α) : List α → List α
  | [] => [x]
  | y :: ys => if le x y then x :: y :: ys else y :: insertS le x ys

/-- Stable sort (uniquely determined by stability together with sortedness,
so it computes the same list as CPython's stable `list.sort`). -/
def sortS (le : α → α → Bool) : List α → List α
  | [] => []
  | x :: xs => insertS le x (sortS le xs)

/-- Compute every sort key up front, as CPython's `list.sort(key=...)` does. -/
def buildKeyed (col : String) (l : List Record) : Except String (List (SKey × Record)) :=
  mapE (fun r =>
    match sortKeyFn col r with
    | .ok k => .ok (k, r)
    | .error e => .error e) l

/-- The sort step.  CPython implements `reverse=True` by reversing the list,
sorting ascending with a stable sort, and reversing again; that is modelled
literally, which gives the documented semantics (descending order, ties in
original order). -/
def sortStep (col : String) (rev : Bool) (l : List Record) : Except String (List Record) :=
  if col ∈ recognizedSortFields then
    if rev then
      match buildKeyed col l.reverse with
      | .error e => .error e
      | .ok kl => .ok (((sortS pairLe kl).map Prod.snd).reverse)
    else
      match buildKeyed col l with
      | .error e => .error e
      | .ok kl => .ok ((sortS pairLe kl).map Prod.snd)
  else .ok l

/-- `MonsterManagerGUI.apply_filters_and_sort`.  Returns the displayed list
together with the state of the caller's `monsters` list after the call: the
Python code starts with `filtered = monsters` and only rebinds `filtered` to
a fresh list inside the search branch and the active-criterion branches, so
when the stripped query is empty and no criterion is active, `filtered.sort`
sorts the caller's list in place. -/
def apply_filters_and_sort (records : List Record) (q : String)
    (criteria : List (String × Criterion)) (col : String) (rev : Bool) :
    Except String (List Record × List Record) :=
  match searchStep q records with
  | .error e => .error e
  | .ok s1 =>
    match criteriaStep criteria s1 with
    | .error e => .error e
    | .ok s2 =>
      match sortStep col rev s2 with
      | .error e => .error e
      | .ok out =>
        let aliased := decide (strLower (strTrim q) = "") && criteria.all (fun p => !isActive p.2)
        let mutated := aliased && decide (col ∈ recognizedSortFields)
        .ok (out, if mutated then out else records)

/-- `[tag.strip() for tag in value.split(',') if tag.strip()]`. -/
def parseTags (s : String) : List String :=
  ((splitOnChar ',' s.toList).map (fun g => String.mk (trimChars g))).filter (fun t => !t.isEmpty)

/-- `list(set(l))`: deduplicate; Python's order is unspecified, `List.dedup`
is the deterministic stand-in (every theorem about it is order-independent). -/
def pySetList (l : List String) : List String :=
  l.dedup

/-- One field change applied to one monster, with the running `modified` flag:
the body of the inner loop of `MonsterManagerGUI.apply_bulk_changes`.
`None` and `''` values are skipped; a string valued `tags` change merges with
the existing tags; everything else overwrites.  A non-list existing tags value
makes `existing_tags + new_tags` raise `TypeError`. -/
def bulkStep (acc : Record × Bool) (fv : String × Value) : Except String (Record × Bool) :=
  let r := acc.1
  let modif := acc.2
  let f := fv.1
  let v := fv.2
  if v = .vNull ∨ v = .vStr "" then .ok (r, modif)
  else
    match f == "tags", v with
    | true, .vStr s =>
      match recGetD r "tags" (.vList []) with
      | .vList ex =>
        let allT := pySetList (ex ++ parseTags s)
        .ok ((if allT = [] then r else recSet r "tags" (.vList allT)), true)
      | _ => .error "TypeError"
    | _, _ => .ok (recSet r f v, true)

/-- All field changes applied to one monster. -/
def bulkChangeRecord (changes : List (String × Value)) (m : Record) : Except String (Record × Bool) :=
  go changes (m, false)
where
  go : List (String × Value) → Record × Bool → Except String (Record × Bool)
    | [], acc => .ok acc
    | fv :: rest, acc =>
      match bulkStep acc fv with
      | .error e => .error e
      | .ok acc' => go rest acc'

/-- `MonsterManagerGUI.apply_bulk_changes`: mutate every selected monster in
place and count the monsters whose `modified` flag was set.  (Each modified
monster is then handed to `save_monster`; persistence is outside this
function.) -/
def apply_bulk_changes (changes : List (String × Value)) :
    List Record → Except String (List Record × Nat)
  | [] => .ok ([], 0)
  | m :: rest =>
    match bulkChangeRecord changes m with
    | .error e => .error e
    | .ok (m', modif) =>
      match apply_bulk_changes changes rest with
      | .error e => .error e
      | .ok (ms, c) => .ok (m' :: ms, (if modif then 1 else 0) + c)

/-- `AdvancedItemEditor.gp_to_cp` on an in-range float: `int(gp * 100)`. -/
def gp_to_cp (gp : ℚ) : ℤ :=
  ratTrunc (Rat.divInt (gp.num * 100) (Int.ofNat gp.den))

/-- One checked bulk-edit field applied to one item
(`AdvancedItemEditor.bulk_edit_dialog.apply_bulk_edit`, inner loop body).
A malformed number for `price`/`weight`/`stack` is skipped silently
(`except ValueError: continue`); an empty, `none` or `null` text on any other
checked field stores Python `None`. -/
def itemApplyField (f : String) (newValue : String) (r : Record) : Record :=
  if f = "price" ∧ ¬newValue.isEmpty then
    match parseFloat? newValue with
    | some q => recSet r "price" (.vNum (ratOfInt (gp_to_cp q)))
    | none => r
  else if (f = "weight" ∨ f = "stack") ∧ ¬newValue.isEmpty then
    if f = "weight" then
      match parseFloat? newValue with
      | some q => recSet r "weight" (.vNum q)
      | none => r
    else
      match parseInt? newValue with
      | some i => recSet r "stack" (.vNum (ratOfInt i))
      | none => r
  else
    if strLower newValue = "none" ∨ strLower newValue = "null" ∨ newValue.isEmpty then
      recSet r f .vNull
    else recSet r f (.vStr newValue)

/-- `apply_bulk_edit`: every checked field (with its stripped entry text) is
applied to every selected item; `changes_made` counts checked fields, one per
field, regardless of what happened on the records. -/
def apply_bulk_edit (checked : List (String × String)) (items : List Record) :
    List Record × Nat :=
  checked.foldl
    (fun acc fs => (acc.1.map (itemApplyField fs.1 (strTrim fs.2)), acc.2 + 1))
    (items, 0)

/-- `BulkEditDialog.apply_changes` in the monster tool: build the changes
dict from the dialog entries; a malformed number for a numeric field shows a
validation error and returns with no result, so the whole batch is dropped
(`none`). -/
def dialogApplyChanges : List (String × String) → Option (List (String × Value))
  | [] => some []
  | (f, raw) :: rest =>
    let v := strTrim raw
    if v.isEmpty then dialogApplyChanges rest
    else if f = "challenge_rating" then
      match parseFloat? v with
      | some q => (dialogApplyChanges rest).map (fun cs => (f, Value.vNum q) :: cs)
      | none => none
    else if f = "armor_class" ∨ f = "hit_points" then
      match parseInt? v with
      | some i => (dialogApplyChanges rest).map (fun cs => (f, Value.vNum (ratOfInt i)) :: cs)
      | none => none
    else (dialogApplyChanges rest).map (fun cs => (f, Value.vStr v) :: cs)

/-- ASCII reading of the regex class `\w`. -/
def isWordChar (c : Char) : Bool :=
  c.isAlphanum || c = '_'

/-- `re.sub(r'\s+', '-', s)` worker: the flag records whether the previous
character was whitespace (so the run's later characters are dropped). -/
def collapseWSGo : Bool → List Char → List Char
  | _, [] => []
  | inWS, c :: rest =>
    if c.isWhitespace then
      if inWS then collapseWSGo true rest else '-' :: collapseWSGo true rest
    else c :: collapseWSGo false rest

/-- `re.sub(r'\s+', '-', s)`: collapse each maximal whitespace run to one hyphen. -/
def collapseWS (cs : List Char) : List Char :=
  collapseWSGo false cs

/-- `sanitize_filename`: drop characters outside `\w`, whitespace and hyphen;
collapse whitespace runs to hyphens; lower-case. -/
def sanitize_filename (name : String) : String :=
  strLower (String.mk (collapseWS (name.toList.filter (fun c => isWordChar c || c.isWhitespace || c = '-'))))

/-- `monster.get('id', 0)` read as a number for `max`; a non-numeric id makes
`max` raise `TypeError`. -/
def idNum (m : Record) : Except String ℚ :=
  match recGetD m "id" (.vNum 0) with
  | .vNum q => .ok q
  | .vBool b => .ok (if b then 1 else 0)
  | _ => .error "TypeError"

/-- The running `max_id` of `save_monster`. -/
def maxIdE : List Record → Except String ℚ
  | [] => .ok 0
  | m :: rest =>
    match idNum m with
    | .error e => .error e
    | .ok q =>
      match maxIdE rest with
      | .error e => .error e
      | .ok c => .ok (max q c)

/-- `q + 1` built with `Rat.divInt`. -/
def ratAddOne (q : ℚ) : ℚ :=
  Rat.divInt (q.num + (Int.ofNat q.den)) (Int.ofNat q.den)

/-- `MonsterManagerGUI.save_monster`, up to the file write: assign a fresh id
when missing, strip the `filename` field, drop a falsy `tags` field, and
derive the target file name from the monster's name.  Returns the file name
and the JSON object written. -/
def save_monster (monster : Record) (monstersData : List Record) :
    Except String (String × Record) :=
  let withIdE : Except String Record :=
    if (recGet monster "id").isSome then .ok monster
    else
      match maxIdE monstersData with
      | .error e => .error e
      | .ok mx => .ok (recSet monster "id" (.vNum (ratAddOne mx)))
  match withIdE with
  | .error e => .error e
  | .ok withId =>
    let cleaned := withId.filter (fun kv => kv.1 ≠ "filename")
    let cleaned2 :=
      match recGet cleaned "tags" with
      | some v => if isFalsy v then recRemove cleaned "tags" else cleaned
      | none => cleaned
    match recGet monster "name" with
    | some (.vStr nm) => .ok (sanitize_filename nm ++ ".json", cleaned2)
    | some _ => .error "TypeError"
    | none => .error "KeyError"

/-- `value.lower()` on a field the item search assumes to be a string. -/
def pyLowerE : Value → Except String String
  | .vStr s => .ok (strLower s)
  | _ => .error "AttributeError"

/-- `any(query in entry.lower() for entry in v)`: iterate a list (or the
characters of a string); anything else raises `TypeError`. -/
def anyLowerContainsE (v : Value) (q : String) : Except String Bool :=
  match v with
  | .vList xs => .ok (xs.any (fun t => strContains (strLower t) q))
  | .vStr s => .ok (s.toList.any (fun c => strContains (strLower (String.singleton c)) q))
  | _ => .error "TypeError"

/-- `AdvancedItemEditor.item_matches_search`: name, type, description, then
the truthy `tags` and `notes` lists, with Python's early returns. -/
def item_matches_search (item : Record) (q : String) : Except String Bool :=
  match pyLowerE (recGetD item "name" (.vStr "")) with
  | .error e => .error e
  | .ok n =>
    if strContains n q then .ok true
    else
      match pyLowerE (recGetD item "type" (.vStr "")) with
      | .error e => .error e
      | .ok t =>
        if strContains t q then .ok true
        else
          match pyLowerE (recGetD item "description" (.vStr "")) with
          | .error e => .error e
          | .ok d =>
            if strContains d q then .ok true
            else
              let tagsV := recGetD item "tags" .vNull
              match (if isFalsy tagsV then .ok false else anyLowerContainsE tagsV q :
                  Except String Bool) with
              | .error e => .error e
              | .ok tg =>
                if tg then .ok true
                else
                  let notesV := recGetD item "notes" .vNull
                  match (if isFalsy notesV then .ok false else anyLowerContainsE notesV q :
                      Except String Bool) with
                  | .error e => .error e
                  | .ok nt => .ok nt

/-- The search predicate exactly as the claim words it (for both tools): the
lower-cased query occurs in the name, the type/category field, the
alignment/descriptive field, or some entry of the tags list.  For the item
tool the descriptive field is `description`; written from the spec for the
refinement comparison, not from the code. -/
def claimSearchKeep (descriptive : String) (r : Record) (q : String) : Bool :=
  strContains (strLower (pyStr (recGetD r "name" (.vStr "")))) q ||
  strContains (strLower (pyStr (recGetD r "type" (.vStr "")))) q ||
  strContains (strLower (pyStr (recGetD r descriptive (.vStr "")))) q ||
  (match recGet r "tags" with
   | some (.vList xs) => xs.any (fun t => strContains (strLower t) q)
   | _ => false)

/-- Does an entry of the `notes` list contain the query?  The fifth searchable
place of `item_matches_search`, absent from the spec's list. -/
def notesMatch (r : Record) (q : String) : Bool :=
  match recGet r "notes" with
  | some (.vList xs) => xs.any (fun t => strContains (strLower t) q)
  | _ => false

/-- The value at field `f` is a number, a boolean, or absent — the shapes a
float comparison accepts. -/
def numOrMissing (r : Record) (f : String) : Bool :=
  match recGet r f with
  | none => true
  | some (.vNum _) => true
  | some (.vBool _) => true
  | _ => false

/-- The number the range filter compares: the stored number (booleans count
as 0/1), or the literal `0` default for a missing field. -/
def rangeVal (r : Record) (f : String) : ℚ :=
  match recGetD r f (.vNum 0) with
  | .vNum q => q
  | .vBool b => if b then 1 else 0
  | _ => 0

/-- The `tags` field, if present, is a list — the shape the spec's data model
gives it. -/
def monsterTagsOk (r : Record) : Bool :=
  match recGet r "tags" with
  | none => true
  | some (.vList _) => true
  | _ => false

/-- The `tags` field, if present, is a list or a string — every shape the
monster search step can iterate without raising. -/
def tagsIterOk (r : Record) : Bool :=
  match recGet r "tags" with
  | none => true
  | some (.vList _) => true
  | some (.vStr _) => true
  | _ => false

/-- The record's tags read the way `apply_bulk_changes` reads them
(`monster.get('tags', [])`), projected to the list case. -/
def tagsOf (r : Record) : List String :=
  match recGetD r "tags" (.vList []) with
  | .vList xs => xs
  | _ => []

/-- Field `f` is absent or holds a string — what the item search's
`.lower()` calls require. -/
def strOrMissing (r : Record) (f : String) : Bool :=
  match recGet r f with
  | none => true
  | some (.vStr _) => true
  | _ => false

/-- Field `f` is absent or holds a list — what the item search's iteration
of truthy `tags`/`notes` requires for the claim's reading. -/
def listOrMissing (r : Record) (f : String) : Bool :=
  match recGet r f with
  | none => true
  | some (.vList _) => true
  | _ => false

/-- An item record typed the way `item_matches_search` assumes. -/
def itemSearchWf (r : Record) : Bool :=
  strOrMissing r "name" && strOrMissing r "type" && strOrMissing r "description" &&
  listOrMissing r "tags" && listOrMissing r "notes"

/-- Does the record's sort key at this column compute to `k`? -/
def keyIs (col : String) (k : SKey) (r : Record) : Bool :=
  match sortKeyFn col r with
  | .ok k' => k' = k
  | .error _ => false

/-- The record order a column's sort induces: whenever both sort keys
compute, the first is ≤ the second. -/
def recKeyLe (col : String) (r₁ r₂ : Record) : Prop :=
  ∀ k₁ k₂, sortKeyFn col r₁ = .ok k₁ → sortKeyFn col r₂ = .ok k₂ → skeyLe k₁ k₂ = true

/-- Records typed so that every step of `apply_filters_and_sort` succeeds:
iterable tags wherever the search runs, numeric-or-missing values under every
range criterion, and a sort key that builds for every record. -/
def wfForApply (records : List Record) (q : String)
    (criteria : List (String × Criterion)) (col : String) : Prop :=
  (strLower (strTrim q) ≠ "" → ∀ r ∈ records, tagsIterOk r) ∧
  (∀ fc ∈ criteria, ∀ r ∈ records,
    match fc.2 with
    | Criterion.range _ _ => numOrMissing r fc.1
    | _ => True) ∧
  (∀ r ∈ records, ∃ k, sortKeyFn col r = .ok k)

/-! ## Helper lemmas -/

theorem filterE_ok {α : Type} (p : α → Except String Bool) (q : α → Bool) :
    ∀ l : List α, (∀ a ∈ l, p a = .ok (q a)) → filterE p l = .ok (l.filter q) := by
  intro l h
  induction l with
  | nil => rfl
  | cons a as ih =>
    have ha := h a (List.mem_cons_self a as)
    have hrest := ih (fun x hx => h x (List.mem_cons_of_mem a hx))
    simp [filterE, ha, hrest, List.filter_cons]

theorem mapE_ok {α β : Type} (f : α → Except String β) (g : α → β) :
    ∀ l : List α, (∀ a ∈ l, f a = .ok (g a)) → mapE f l = .ok (l.map g) := by
  intro l h
  induction l with
  | nil => rfl
  | cons a as ih =>
    have ha := h a (List.mem_cons_self a as)
    have hrest := ih (fun x hx => h x (List.mem_cons_of_mem a hx))
    simp [mapE, ha, hrest]

theorem recGet_recSet (r : Record) (k k' : String) (v : Value) :
    recGet (recSet r k v) k' = if k' = k then some v else recGet r k' := by
  induction r with
  | nil =>
    simp only [recSet, recGet]
    by_cases h : k = k'
    · subst h
      simp
    · rw [if_neg h, if_neg (fun hh : k' = k => h hh.symm)]
  | cons kv rest ih =>
    obtain ⟨k0, v0⟩ := kv
    by_cases h0 : k0 = k
    · subst h0
      simp only [recSet, if_pos rfl, recGet]
      by_cases h : k0 = k'
      · subst h
        simp
      · rw [if_neg h, if_neg (fun hh : k' = k0 => h hh.symm), if_neg h]
    · simp only [recSet, if_neg h0, recGet, ih]
      by_cases h : k0 = k'
      · subst h
        rw [if_pos rfl, if_neg (fun hh : k0 = k => h0 hh), if_pos rfl]
      · rw [if_neg h, if_neg h]

theorem recGet_filterNe (r : Record) (k k' : String) :
    recGet (r.filter (fun kv => kv.1 ≠ k)) k' = if k' = k then none else recGet r k' := by
  induction r with
  | nil =>
    simp only [List.filter_nil, recGet]
    by_cases h : k' = k <;> simp [h]
  | cons kv rest ih =>
    obtain ⟨k0, v0⟩ := kv
    by_cases h0 : k0 = k
    · subst h0
      have hd : (decide (¬((k0, v0) : String × Value).1 = k0)) = false := by simp
      simp only [List.filter_cons, hd, Bool.false_eq_true, if_false, ih]
      by_cases h : k' = k0
      · simp [h]
      · rw [if_neg h, if_neg h, recGet, if_neg (fun hh : k0 = k' => h hh.symm)]
    · have hd : (decide (¬((k0, v0) : String × Value).1 = k)) = true := by simp [h0]
      simp only [List.filter_cons, hd, if_true, recGet, ih]
      by_cases h : k0 = k'
      · subst h
        rw [if_pos rfl, if_neg (fun hh : k0 = k => h0 hh), if_pos rfl]
      · rw [if_neg h, if_neg h]

/-! ## C1: mutation of the caller's list -/

/-- C1 (amended): the caller's `monsters` list survives `apply_filters_and_sort`
unchanged exactly when some filter step rebound `filtered` to a fresh list or
no sort ran; with an empty (stripped) query, no active criterion and a
recognized sort column, the function sorts the caller's list in place, so the
caller afterwards sees the sorted sequence, not the original one. -/
theorem apply_filters_and_sort_input_after (records : List Record) (q : String)
    (criteria : List (String × Criterion)) (col : String) (rev : Bool)
    (out after : List Record)
    (h : apply_filters_and_sort records q criteria col rev = .ok (out, after)) :
    after = if strLower (strTrim q) = "" ∧ (∀ fc ∈ criteria, ¬isActive fc.2) ∧ col ∈ recognizedSortFields
            then out else records := by
  unfold apply_filters_and_sort at h
  cases hs : searchStep q records with
  | error e => rw [hs] at h; cases h
  | ok s1 =>
    rw [hs] at h
    dsimp only at h
    cases hc : criteriaStep criteria s1 with
    | error e => rw [hc] at h; cases h
    | ok s2 =>
      rw [hc] at h
      dsimp only at h
      cases ho : sortStep col rev s2 with
      | error e => rw [ho] at h; cases h
      | ok out' =>
        rw [ho] at h
        dsimp only at h
        simp only [Except.ok.injEq, Prod.mk.injEq] at h
        obtain ⟨hout, hafter⟩ := h
        subst hout
        by_cases hcond : strLower (strTrim q) = "" ∧ (∀ fc ∈ criteria, ¬isActive fc.2) ∧ col ∈ recognizedSortFields
        · rw [if_pos hcond]
          obtain ⟨h1, h2, h3⟩ := hcond
          have hb : (decide (strLower (strTrim q) = "") && criteria.all (fun p => !isActive p.2) &&
              decide (col ∈ recognizedSortFields)) = true := by
            simp [h1, h3, List.all_eq_true]
            intro a b hab
            exact Bool.not_eq_true _ ▸ (by simpa using h2 (a, b) hab)
          rw [hb] at hafter
          simpa using hafter.symm
        · rw [if_neg hcond]
          have hb : (decide (strLower (strTrim q) = "") && criteria.all (fun p => !isActive p.2) &&
              decide (col ∈ recognizedSortFields)) = false := by
            by_contra hby
            apply hcond
            have := Bool.of_not_eq_false hby
            simp only [Bool.and_eq_true, decide_eq_true_eq, List.all_eq_true] at this
            refine ⟨this.1.1, ?_, this.2⟩
            intro fc hfc
            have := this.1.2 fc hfc
            simpa using this
          rw [hb] at hafter
          simpa using hafter.symm

/-- C1 witness: with a non-empty query, the caller's list is returned intact. -/
theorem apply_filters_and_sort_input_after_witness :
    ([[("name", Value.vStr "Goblin")]] : List Record) =
      if strLower (strTrim "x") = "" ∧
          (∀ fc ∈ ([] : List (String × Criterion)), ¬isActive fc.2) ∧
          "name" ∈ recognizedSortFields
      then ([] : List Record) else [[("name", Value.vStr "Goblin")]] :=
  apply_filters_and_sort_input_after [[("name", Value.vStr "Goblin")]] "x" [] "name" false
    [] [[("name", Value.vStr "Goblin")]] (by rfl)

/-- C1 counterexample: empty query, no criteria, recognized sort column —
the call hands back the caller's list re-ordered in place, so after the call
the caller's `records` no longer holds its elements in the original order. -/
theorem apply_filters_and_sort_mutates_input :
    apply_filters_and_sort [[("name", Value.vStr "b")], [("name", Value.vStr "a")]] "" [] "name" false
      = .ok ([[("name", Value.vStr "a")], [("name", Value.vStr "b")]],
             [[("name", Value.vStr "a")], [("name", Value.vStr "b")]])
    ∧ ([[("name", Value.vStr "a")], [("name", Value.vStr "b")]] : List Record)
      ≠ [[("name", Value.vStr "b")], [("name", Value.vStr "a")]] := by
  exact ⟨by rfl, by decide⟩

/-! ## C3 and C4: bulk-change skipping and the modified count -/

theorem bulkStep_skip (r : Record) (b : Bool) (fv : String × Value)
    (h : fv.2 = Value.vNull ∨ fv.2 = Value.vStr "") :
    bulkStep (r, b) fv = .ok (r, b) := by
  unfold bulkStep
  simp only [if_pos h]

theorem bulkStep_modified (r : Record) (b : Bool) (fv : String × Value) (r' : Record) (b' : Bool)
    (h : bulkStep (r, b) fv = .ok (r', b')) :
    b' = (b || decide (¬(fv.2 = Value.vNull ∨ fv.2 = Value.vStr ""))) := by
  obtain ⟨f, v⟩ := fv
  unfold bulkStep at h
  by_cases hv : (f, v).2 = Value.vNull ∨ (f, v).2 = Value.vStr ""
  · rw [if_pos hv] at h
    simp only [Except.ok.injEq, Prod.mk.injEq] at h
    simp [h.2.symm, hv]
  · rw [if_neg hv] at h
    have hgoal : b' = true → b' = (b || decide (¬((f, v).2 = Value.vNull ∨ (f, v).2 = Value.vStr ""))) := by
      intro hb'
      simp [hb', hv]
    apply hgoal
    cases hb : (f == "tags") <;> rw [hb] at h
    · dsimp only at h
      simp only [Except.ok.injEq, Prod.mk.injEq] at h
      exact h.2.symm
    · cases v with
      | vStr s =>
        dsimp only at h
        cases hg : recGetD r "tags" (Value.vList []) with
        | vList ex =>
          rw [hg] at h
          dsimp only at h
          simp only [Except.ok.injEq, Prod.mk.injEq] at h
          exact h.2.symm
        | vStr s2 => rw [hg] at h; simp at h
        | vNum q2 => rw [hg] at h; simp at h
        | vBool b2 => rw [hg] at h; simp at h
        | vNull => rw [hg] at h; simp at h
      | vNum q =>
        dsimp only at h
        simp only [Except.ok.injEq, Prod.mk.injEq] at h
        exact h.2.symm
      | vBool bb =>
        dsimp only at h
        simp only [Except.ok.injEq, Prod.mk.injEq] at h
        exact h.2.symm
      | vNull =>
        dsimp only at h
        simp only [Except.ok.injEq, Prod.mk.injEq] at h
        exact h.2.symm
      | vList xs =>
        dsimp only at h
        simp only [Except.ok.injEq, Prod.mk.injEq] at h
        exact h.2.symm

theorem bulk_go_skip_all (changes : List (String × Value)) :
    ∀ acc : Record × Bool, (∀ fv ∈ changes, fv.2 = Value.vNull ∨ fv.2 = Value.vStr "") →
    bulkChangeRecord.go changes acc = .ok acc := by
  induction changes with
  | nil => intro acc _; rfl
  | cons fv rest ih =>
    intro acc h
    have hskip := bulkStep_skip acc.1 acc.2 fv (h fv (List.mem_cons_self fv rest))
    unfold bulkChangeRecord.go
    rw [hskip]
    exact ih acc (fun x hx => h x (List.mem_cons_of_mem fv hx))

theorem bulk_go_modified (changes : List (String × Value)) :
    ∀ (r : Record) (b : Bool) (r' : Record) (b' : Bool),
    bulkChangeRecord.go changes (r, b) = .ok (r', b') →
    b' = (b || changes.any (fun fv => decide (¬(fv.2 = Value.vNull ∨ fv.2 = Value.vStr "")))) := by
  induction changes with
  | nil =>
    intro r b r' b' h
    unfold bulkChangeRecord.go at h
    simp only [Except.ok.injEq, Prod.mk.injEq] at h
    simp [h.2.symm]
  | cons fv rest ih =>
    intro r b r' b' h
    unfold bulkChangeRecord.go at h
    cases hs : bulkStep (r, b) fv with
    | error e => rw [hs] at h; cases h
    | ok acc1 =>
      rw [hs] at h
      dsimp only at h
      obtain ⟨r1, b1⟩ := acc1
      have hb1 := bulkStep_modified r b fv r1 b1 hs
      have := ih r1 b1 r' b' h
      rw [this, hb1]
      simp [Bool.or_assoc]

theorem apply_bulk_changes_all_skipped (changes : List (String × Value)) :
    ∀ sel : List Record, (∀ fv ∈ changes, fv.2 = Value.vNull ∨ fv.2 = Value.vStr "") →
    apply_bulk_changes changes sel = .ok (sel, 0) := by
  intro sel h
  induction sel with
  | nil => rfl
  | cons m rest ih =>
    unfold apply_bulk_changes
    have : bulkChangeRecord changes m = .ok (m, false) := bulk_go_skip_all changes (m, false) h
    rw [this]
    dsimp only
    rw [ih]
    simp

theorem apply_bulk_changes_count (changes : List (String × Value)) :
    ∀ (sel out : List Record) (c : Nat), apply_bulk_changes changes sel = .ok (out, c) →
    c = if changes.any (fun fv => decide (¬(fv.2 = Value.vNull ∨ fv.2 = Value.vStr "")))
        then sel.length else 0 := by
  intro sel
  induction sel with
  | nil =>
    intro out c h
    unfold apply_bulk_changes at h
    simp only [Except.ok.injEq, Prod.mk.injEq] at h
    cases hany : changes.any (fun fv => decide (¬(fv.2 = Value.vNull ∨ fv.2 = Value.vStr ""))) <;>
      simp [h.2.symm]
  | cons m rest ih =>
    intro out c h
    unfold apply_bulk_changes at h
    cases hb : bulkChangeRecord changes m with
    | error e => rw [hb] at h; cases h
    | ok acc =>
      rw [hb] at h
      dsimp only at h
      obtain ⟨m', modif⟩ := acc
      cases hrest : apply_bulk_changes changes rest with
      | error e => rw [hrest] at h; cases h
      | ok p =>
        rw [hrest] at h
        dsimp only at h
        obtain ⟨ms, c0⟩ := p
        simp only [Except.ok.injEq, Prod.mk.injEq] at h
        have hmod := bulk_go_modified changes m false m' modif hb
        have hc0 := ih ms c0 hrest
        rw [← h.2, hmod, hc0]
        cases hany : changes.any (fun fv => decide (¬(fv.2 = Value.vNull ∨ fv.2 = Value.vStr "")))
        · simp [hany]
        · simp only [hany, Bool.false_or, if_pos, List.length_cons]
          omega

theorem apply_bulk_edit_count_aux (checked : List (String × String)) :
    ∀ (items : List Record) (n : Nat),
    (checked.foldl (fun acc fs => (acc.1.map (itemApplyField fs.1 (strTrim fs.2)), acc.2 + 1)) (items, n)).2
      = n + checked.length := by
  induction checked with
  | nil => intro items n; simp
  | cons fs rest ih =>
    intro items n
    simp only [List.foldl_cons, List.length_cons]
    rw [ih]
    omega

/-- C3 (amended): in the monster tool, `apply_bulk_changes` skips every `None`
or empty-string change, so an all-empty batch leaves every record unchanged
and reports 0; in the item tool, a checked field whose entry is empty is not
skipped — it stores Python `None` into that field on every selected record. -/
theorem bulk_empty_values_monster_skip_item_none :
    (∀ (changes : List (String × Value)) (sel : List Record),
      (∀ fv ∈ changes, fv.2 = Value.vNull ∨ fv.2 = Value.vStr "") →
      apply_bulk_changes changes sel = .ok (sel, 0))
    ∧ (∀ (f : String) (r : Record), itemApplyField f "" r = recSet r f Value.vNull) := by
  constructor
  · intro changes sel h
    exact apply_bulk_changes_all_skipped changes sel h
  · intro f r
    have h1 : (("" : String).isEmpty) = true := rfl
    simp [itemApplyField, h1]

/-- C3 witness: an all-empty monster batch returns the selection with count 0,
and the item-tool behavior on an empty entry is the `None` overwrite. -/
theorem bulk_empty_values_witness :
    apply_bulk_changes [("type", Value.vStr "")] [[("name", Value.vStr "Rat")]]
      = .ok ([[("name", Value.vStr "Rat")]], 0)
    ∧ itemApplyField "description" "" [] = recSet [] "description" Value.vNull :=
  ⟨bulk_empty_values_monster_skip_item_none.1 [("type", Value.vStr "")]
      [[("name", Value.vStr "Rat")]] (by decide),
   bulk_empty_values_monster_skip_item_none.2 "description" []⟩

/-- C3 counterexample: in the item editor, a checked `description` with an
empty entry text rewrites the field to `None` on the selected record (and the
reported count is 1, not 0), so the record does not stay unchanged. -/
theorem item_bulk_empty_value_overwrites :
    apply_bulk_edit [("description", "")] [[("description", Value.vStr "old")]]
      = ([[("description", Value.vNull)]], 1)
    ∧ ([[("description", Value.vNull)]] : List Record) ≠ [[("description", Value.vStr "old")]] :=
  ⟨rfl, by decide⟩

/-- C4 (amended): the monster tool's count is the number of records to which
at least one non-empty change was applied — every selected record when some
change is applicable, even if the written value equals the old one — and the
item tool's figure counts checked fields, not records. -/
theorem bulk_modified_count_semantics :
    (∀ (changes : List (String × Value)) (sel out : List Record) (c : Nat),
      apply_bulk_changes changes sel = .ok (out, c) →
      c = if changes.any (fun fv => decide (¬(fv.2 = Value.vNull ∨ fv.2 = Value.vStr "")))
          then sel.length else 0)
    ∧ (∀ (checked : List (String × String)) (items : List Record),
      (apply_bulk_edit checked items).2 = checked.length) :=
  ⟨fun changes sel out c h => apply_bulk_changes_count changes sel out c h,
   fun checked items => by simpa [apply_bulk_edit] using apply_bulk_edit_count_aux checked items 0⟩

/-- C4 witness: a batch with one applicable change over one record counts 1. -/
theorem bulk_modified_count_witness :
    (1 : Nat) = if [("type", Value.vStr "dragon")].any
        (fun fv => decide (¬(fv.2 = Value.vNull ∨ fv.2 = Value.vStr "")))
      then [[("type", Value.vStr "dragon")]].length else 0 :=
  bulk_modified_count_semantics.1 [("type", Value.vStr "dragon")]
    [[("type", Value.vStr "dragon")]] [[("type", Value.vStr "dragon")]] 1 (by rfl)

/-- C4 counterexample: writing `type = "dragon"` into a record whose type is
already `"dragon"` changes no field value, yet the returned count is 1 — the
count tallies records a change was applied to, not records that changed. -/
theorem bulk_count_counts_unchanged_records :
    apply_bulk_changes [("type", Value.vStr "dragon")] [[("type", Value.vStr "dragon")]]
      = .ok ([[("type", Value.vStr "dragon")]], 1) ∧ (1 : Nat) ≠ 0 :=
  ⟨rfl, by decide⟩

/-! ## C5: the range criterion -/

theorem rangeTest_ok (f : String) (mn : ℚ) (mx : UBound) (r : Record) (h : numOrMissing r f) :
    rangeTest f mn mx r = .ok (decide (mn ≤ rangeVal r f) && leUB (rangeVal r f) mx) := by
  unfold numOrMissing at h
  unfold rangeTest numForCompare rangeVal recGetD
  cases hg : recGet r f with
  | none => simp
  | some v =>
    rw [hg] at h
    cases v <;> simp_all

/-- C5 (amended): on records whose value at the filtered field is numeric,
boolean or missing, the range criterion keeps exactly the records whose
compared value v (the stored number, with 0 for a missing field) satisfies
min ≤ v ≤ max; consequently min=0, max=∞ keeps exactly the records whose
compared value is non-negative — a record with a negative value is dropped,
so the filter is not a universal no-op. -/
theorem range_criterion_semantics :
    (∀ (f : String) (mn : ℚ) (mx : UBound) (l : List Record),
      (∀ r ∈ l, numOrMissing r f) →
      applyCriterion f (.range mn mx) l
        = .ok (l.filter (fun r => decide (mn ≤ rangeVal r f) && leUB (rangeVal r f) mx)))
    ∧ (∀ (f : String) (l : List Record),
      (∀ r ∈ l, numOrMissing r f) →
      applyCriterion f (.range 0 .posInf) l
        = .ok (l.filter (fun r => decide (0 ≤ rangeVal r f)))) := by
  have main : ∀ (f : String) (mn : ℚ) (mx : UBound) (l : List Record),
      (∀ r ∈ l, numOrMissing r f) →
      applyCriterion f (.range mn mx) l
        = .ok (l.filter (fun r => decide (mn ≤ rangeVal r f) && leUB (rangeVal r f) mx)) := by
    intro f mn mx l h
    unfold applyCriterion
    exact filterE_ok _ _ l (fun r hr => rangeTest_ok f mn mx r (h r hr))
  refine ⟨main, ?_⟩
  intro f l h
  rw [main f 0 .posInf l h]
  have : (fun r => decide ((0:ℚ) ≤ rangeVal r f) && leUB (rangeVal r f) .posInf)
      = (fun r => decide ((0:ℚ) ≤ rangeVal r f)) := by
    funext r
    simp [leUB]
  rw [this]

/-- C5 witness: a finite range keeps the in-range record and the missing-field
record (value 0), and the 0..∞ range keeps non-negative values. -/
theorem range_criterion_semantics_witness :
    applyCriterion "challenge_rating" (.range 0 (.fin 10))
        [[("challenge_rating", Value.vNum 3)], [("name", Value.vStr "x")],
         [("challenge_rating", Value.vNum 24)]]
      = .ok ([[("challenge_rating", Value.vNum 3)], [("name", Value.vStr "x")],
              [("challenge_rating", Value.vNum 24)]].filter
          (fun r => decide ((0:ℚ) ≤ rangeVal r "challenge_rating") &&
            leUB (rangeVal r "challenge_rating") (.fin 10)))
    ∧ applyCriterion "challenge_rating" (.range 0 .posInf) [[("challenge_rating", Value.vNum 3)]]
      = .ok ([[("challenge_rating", Value.vNum 3)]].filter
          (fun r => decide ((0:ℚ) ≤ rangeVal r "challenge_rating"))) :=
  ⟨range_criterion_semantics.1 "challenge_rating" 0 (.fin 10) _ (by decide),
   range_criterion_semantics.2 "challenge_rating" _ (by decide)⟩

/-- C5 counterexample: with min=0 and max=∞ a record carrying a negative
value at the filtered field is dropped — the claimed "keeps every record"
fails (only missing fields default to 0 and pass). -/
theorem range_zero_inf_drops_negative :
    applyCriterion "challenge_rating" (.range 0 .posInf)
        [[("challenge_rating", Value.vNum (-1))]] = .ok []
    ∧ ([[("challenge_rating", Value.vNum (-1))]] : List Record) ≠ [] :=
  ⟨rfl, by decide⟩

/-! ## C9: malformed numeric input during bulk edit -/

theorem itemApplyField_price_bad (nv : String) (r : Record)
    (hne : ¬nv.isEmpty) (hp : parseFloat? nv = none) :
    itemApplyField "price" nv r = r := by
  unfold itemApplyField
  rw [if_pos ⟨rfl, hne⟩, hp]

theorem itemApplyField_weight_bad (nv : String) (r : Record)
    (hne : ¬nv.isEmpty) (hp : parseFloat? nv = none) :
    itemApplyField "weight" nv r = r := by
  unfold itemApplyField
  rw [if_neg (fun hc => absurd hc.1 (by decide)), if_pos ⟨Or.inl rfl, hne⟩, if_pos rfl, hp]

theorem itemApplyField_stack_bad (nv : String) (r : Record)
    (hne : ¬nv.isEmpty) (hp : parseInt? nv = none) :
    itemApplyField "stack" nv r = r := by
  unfold itemApplyField
  rw [if_neg (fun hc => absurd hc.1 (by decide)), if_pos ⟨Or.inr rfl, hne⟩,
    if_neg (by decide), hp]

theorem dialog_abort_aux : ∀ fields : List (String × String),
    (∃ fr ∈ fields, ¬(strTrim fr.2).isEmpty ∧
      ((fr.1 = "challenge_rating" ∧ parseFloat? (strTrim fr.2) = none) ∨
       ((fr.1 = "armor_class" ∨ fr.1 = "hit_points") ∧ parseInt? (strTrim fr.2) = none))) →
    dialogApplyChanges fields = none := by
  intro fields
  induction fields with
  | nil =>
    rintro ⟨fr, hmem, _⟩
    cases hmem
  | cons fr rest ih =>
    rintro ⟨fr', hmem, hbad⟩
    rw [List.mem_cons] at hmem
    obtain ⟨f, raw⟩ := fr
    unfold dialogApplyChanges
    dsimp only
    rcases hmem with heq | hmem
    · subst heq
      obtain ⟨hne, hcase⟩ := hbad
      rw [if_neg hne]
      rcases hcase with ⟨hf, hp⟩ | ⟨hf, hp⟩
      · rw [if_pos hf, hp]
      · have hfcr : ¬ f = "challenge_rating" := by
          rcases hf with h | h <;> subst h <;> decide
        rw [if_neg hfcr, if_pos hf, hp]
    · have hrest := ih ⟨fr', hmem, hbad⟩
      by_cases he : (strTrim raw).isEmpty
      · rw [if_pos he, hrest]
      · rw [if_neg he]
        by_cases hf : f = "challenge_rating"
        · rw [if_pos hf]
          cases hp : parseFloat? (strTrim raw) <;> simp [hrest]
        · rw [if_neg hf]
          by_cases hf2 : f = "armor_class" ∨ f = "hit_points"
          · rw [if_pos hf2]
            cases hp : parseInt? (strTrim raw) <;> simp [hrest]
          · rw [if_neg hf2, hrest]
            rfl

theorem item_batch_continues_aux (v : String) (items : List Record)
    (hne : ¬(strTrim v).isEmpty) (hp : parseFloat? (strTrim v) = none) :
    apply_bulk_edit [("price", v), ("type", "sword")] items
      = (items.map (fun r => recSet r "type" (Value.vStr "sword")), 2) := by
  unfold apply_bulk_edit
  simp only [List.foldl_cons, List.foldl_nil]
  have h1 : items.map (itemApplyField "price" (strTrim v)) = items := by
    have hfn : itemApplyField "price" (strTrim v) = id :=
      funext (fun r => itemApplyField_price_bad (strTrim v) r hne hp)
    rw [hfn, List.map_id]
  have h2 : itemApplyField "type" (strTrim "sword")
      = (fun r => recSet r "type" (Value.vStr "sword")) := by
    funext r
    show itemApplyField "type" "sword" r = recSet r "type" (Value.vStr "sword")
    unfold itemApplyField
    rw [if_neg (fun hc => absurd hc.1 (by decide)),
      if_neg (fun hc => absurd hc.1 (by rintro (h | h) <;> exact absurd h (by decide))),
      if_neg (by rintro (h | h | h) <;> revert h <;> decide)]
  rw [h1, h2]

/-- C9 (amended): a non-numeric string in a numeric field during bulk edit is
handled differently than the claim says in each tool.  Monster tool: the
malformed entry is reported via an error dialog and `apply_changes` returns
with no result, so the WHOLE batch is dropped — the remaining changes are not
applied.  Item tool: the malformed change is skipped silently for every
record (`except ValueError: continue`) with no report, and the remaining
checked fields of the batch are still applied. -/
theorem bulk_malformed_numeric_behavior :
    (∀ fields : List (String × String),
      (∃ fr ∈ fields, ¬(strTrim fr.2).isEmpty ∧
        ((fr.1 = "challenge_rating" ∧ parseFloat? (strTrim fr.2) = none) ∨
         ((fr.1 = "armor_class" ∨ fr.1 = "hit_points") ∧ parseInt? (strTrim fr.2) = none))) →
      dialogApplyChanges fields = none)
    ∧ (∀ (nv : String) (r : Record), ¬nv.isEmpty → parseFloat? nv = none →
        itemApplyField "price" nv r = r ∧ itemApplyField "weight" nv r = r)
    ∧ (∀ (nv : String) (r : Record), ¬nv.isEmpty → parseInt? nv = none →
        itemApplyField "stack" nv r = r)
    ∧ (∀ (v : String) (items : List Record),
        ¬(strTrim v).isEmpty → parseFloat? (strTrim v) = none →
        apply_bulk_edit [("price", v), ("type", "sword")] items
          = (items.map (fun r => recSet r "type" (Value.vStr "sword")), 2)) :=
  ⟨dialog_abort_aux,
   fun nv r hne hp => ⟨itemApplyField_price_bad nv r hne hp, itemApplyField_weight_bad nv r hne hp⟩,
   fun nv r hne hp => itemApplyField_stack_bad nv r hne hp,
   fun v items hne hp => item_batch_continues_aux v items hne hp⟩

/-- C9 witness: concrete malformed entries exercise both tools' paths. -/
theorem bulk_malformed_numeric_witness :
    dialogApplyChanges [("challenge_rating", "abc")] = none
    ∧ itemApplyField "price" "abc" [] = [] ∧ itemApplyField "weight" "abc" [] = []
    ∧ itemApplyField "stack" "2.5" [] = []
    ∧ apply_bulk_edit [("price", "abc"), ("type", "sword")] [[("name", Value.vStr "i")]]
      = ([[("name", Value.vStr "i")]].map (fun r => recSet r "type" (Value.vStr "sword")), 2) :=
  ⟨bulk_malformed_numeric_behavior.1 [("challenge_rating", "abc")]
      ⟨("challenge_rating", "abc"), by decide, by decide⟩,
   (bulk_malformed_numeric_behavior.2.1 "abc" [] (by decide) (by decide)).1,
   (bulk_malformed_numeric_behavior.2.1 "abc" [] (by decide) (by decide)).2,
   bulk_malformed_numeric_behavior.2.2.1 "2.5" [] (by decide) (by decide),
   bulk_malformed_numeric_behavior.2.2.2 "abc" [[("name", Value.vStr "i")]] (by decide) (by decide)⟩

/-- C9 counterexample: in the monster tool a malformed challenge rating makes
`apply_changes` return nothing, dropping the whole batch: the valid `type`
change in the same batch is NOT applied (alone it would have produced a
changes dict), contradicting "the remaining changes are still applied". -/
theorem dialog_bad_numeric_aborts_batch :
    dialogApplyChanges [("challenge_rating", "abc"), ("type", "dragon")] = none
    ∧ dialogApplyChanges [("type", "dragon")] = some [("type", Value.vStr "dragon")] :=
  ⟨rfl, rfl⟩

/-! ## C10: the persisted record and its file name -/

theorem cleanTagsGet (c : Record) (k : String) :
    recGet (match recGet c "tags" with
            | some v => if isFalsy v then recRemove c "tags" else c
            | none => c) k
      = if k = "tags"
        then (match recGet c "tags" with
              | some v => if isFalsy v then none else some v
              | none => none)
        else recGet c k := by
  cases hg : recGet c "tags" with
  | none =>
    dsimp only
    by_cases hk : k = "tags"
    · rw [if_pos hk, hk, hg]
    · rw [if_neg hk]
  | some v =>
    dsimp only
    by_cases hf : isFalsy v
    · rw [if_pos hf, if_pos hf]
      unfold recRemove
      rw [recGet_filterNe]
    · rw [if_neg hf, if_neg hf]
      by_cases hk : k = "tags"
      · rw [if_pos hk, hk, hg]
      · rw [if_neg hk]

/-- C10 (amended): the persisted JSON keeps every field of the record except
that (1) the internal `filename` tag is always stripped, (2) a falsy `tags`
field (empty list, empty string, 0, False, None) is also dropped, and (3)
when the record has no `id`, a fresh numeric `id` (max existing id + 1) is
added and persisted; the target file name is `sanitize_filename(name) +
".json"` (keep word characters, whitespace and hyphens, collapse whitespace
runs to single hyphens, lower-case). -/
theorem save_monster_output_contract (monster : Record) (data : List Record)
    (nm : String) (path : String) (out : Record)
    (hn : recGet monster "name" = some (Value.vStr nm))
    (h : save_monster monster data = .ok (path, out)) :
    path = sanitize_filename nm ++ ".json"
    ∧ recGet out "filename" = none
    ∧ (∀ k, k ≠ "filename" → k ≠ "tags" → k ≠ "id" → recGet out k = recGet monster k)
    ∧ (recGet out "tags" = match recGet monster "tags" with
        | some v => if isFalsy v then none else some v
        | none => none)
    ∧ (∀ v, recGet monster "id" = some v → recGet out "id" = some v)
    ∧ (recGet monster "id" = none → ∃ q, recGet out "id" = some (Value.vNum q)) := by
  unfold save_monster at h
  by_cases hid : (recGet monster "id").isSome
  · rw [if_pos hid] at h
    dsimp only at h
    rw [hn] at h
    dsimp only at h
    simp only [Except.ok.injEq, Prod.mk.injEq] at h
    obtain ⟨hpath, hout⟩ := h
    have hkey : ∀ k, recGet out k
        = if k = "tags"
          then (match recGet (monster.filter (fun kv => kv.1 ≠ "filename")) "tags" with
                | some v => if isFalsy v then none else some v
                | none => none)
          else recGet (monster.filter (fun kv => kv.1 ≠ "filename")) k := by
      intro k
      rw [← hout]
      exact cleanTagsGet _ k
    refine ⟨hpath.symm, ?_, ?_, ?_, ?_, ?_⟩
    · rw [hkey "filename", if_neg (by decide), recGet_filterNe, if_pos rfl]
    · intro k hk1 hk2 _
      rw [hkey k, if_neg hk2, recGet_filterNe, if_neg hk1]
    · rw [hkey "tags", if_pos rfl, recGet_filterNe, if_neg (by decide)]
    · intro v hv
      rw [hkey "id", if_neg (by decide), recGet_filterNe, if_neg (by decide), hv]
    · intro habs
      rw [habs] at hid
      simp at hid
  · rw [if_neg hid] at h
    dsimp only at h
    cases hmx : maxIdE data with
    | error e => rw [hmx] at h; cases h
    | ok mx =>
      rw [hmx] at h
      dsimp only at h
      rw [hn] at h
      dsimp only at h
      simp only [Except.ok.injEq, Prod.mk.injEq] at h
      obtain ⟨hpath, hout⟩ := h
      have hset : ∀ k, recGet (recSet monster "id" (Value.vNum (ratAddOne mx))) k
          = if k = "id" then some (Value.vNum (ratAddOne mx)) else recGet monster k :=
        fun k => recGet_recSet monster "id" k (Value.vNum (ratAddOne mx))
      have hkey : ∀ k, recGet out k
          = if k = "tags"
            then (match recGet ((recSet monster "id" (Value.vNum (ratAddOne mx))).filter
                    (fun kv => kv.1 ≠ "filename")) "tags" with
                  | some v => if isFalsy v then none else some v
                  | none => none)
            else recGet ((recSet monster "id" (Value.vNum (ratAddOne mx))).filter
                  (fun kv => kv.1 ≠ "filename")) k := by
        intro k
        rw [← hout]
        exact cleanTagsGet _ k
      refine ⟨hpath.symm, ?_, ?_, ?_, ?_, ?_⟩
      · rw [hkey "filename", if_neg (by decide), recGet_filterNe, if_pos rfl]
      · intro k hk1 hk2 hk3
        rw [hkey k, if_neg hk2, recGet_filterNe, if_neg hk1, hset k, if_neg hk3]
      · rw [hkey "tags", if_pos rfl, recGet_filterNe, if_neg (by decide), hset "tags",
          if_neg (by decide)]
      · intro v hv
        rw [hv] at hid
        simp at hid
      · intro _
        refine ⟨ratAddOne mx, ?_⟩
        rw [hkey "id", if_neg (by decide), recGet_filterNe, if_neg (by decide), hset "id",
          if_pos rfl]

/-- C10 witness: a record with an id, a name, a filename tag and real tags
persists to the sanitized path with the filename tag stripped and both the
id and the tags kept. -/
theorem save_monster_output_contract_witness :
    ("fire-giant.json" : String) = sanitize_filename "Fire Giant" ++ ".json"
    ∧ recGet [("name", Value.vStr "Fire Giant"), ("id", Value.vNum 3),
        ("tags", Value.vList ["fire"])] "filename" = none
    ∧ recGet [("name", Value.vStr "Fire Giant"), ("id", Value.vNum 3),
        ("tags", Value.vList ["fire"])] "tags" = some (Value.vList ["fire"]) := by
  have h := save_monster_output_contract
    [("name", Value.vStr "Fire Giant"), ("id", Value.vNum 3), ("tags", Value.vList ["fire"]),
     ("filename", Value.vStr "x.json")] [] "Fire Giant" "fire-giant.json"
    [("name", Value.vStr "Fire Giant"), ("id", Value.vNum 3), ("tags", Value.vList ["fire"])]
    (by rfl) (by rfl)
  refine ⟨h.1, h.2.1, ?_⟩
  rw [h.2.2.2.1]
  rfl

/-- C10 counterexample: a record without `id` and with empty `tags` is not
persisted as "all fields minus filename": the empty tags field is dropped and
a fresh numeric id is added. -/
theorem save_monster_not_only_filename_stripped :
    save_monster [("name", Value.vStr "Rat"), ("filename", Value.vStr "rat.json"),
        ("tags", Value.vList [])] []
      = .ok ("rat.json", [("name", Value.vStr "Rat"), ("id", Value.vNum 1)])
    ∧ ([("name", Value.vStr "Rat"), ("id", Value.vNum 1)] : Record)
      ≠ [("name", Value.vStr "Rat"), ("tags", Value.vList [])] :=
  ⟨rfl, by decide⟩

/-! ## C8: bulk tags merge is a deduplicated union -/

theorem toFinset_dedup' (l : List String) : l.dedup.toFinset = l.toFinset := by
  ext a
  simp [List.mem_toFinset, List.mem_dedup]

theorem tagsOf_wf (r : Record) (h : monsterTagsOk r) :
    recGetD r "tags" (.vList []) = .vList (tagsOf r) := by
  unfold monsterTagsOk at h
  unfold recGetD tagsOf recGetD
  cases hg : recGet r "tags" with
  | none => rfl
  | some v =>
    rw [hg] at h
    cases v <;> simp_all

theorem bulkStep_other_field_tags (r : Record) (b : Bool) (f : String) (v : Value)
    (r' : Record) (b' : Bool) (hf : f ≠ "tags")
    (h : bulkStep (r, b) (f, v) = .ok (r', b')) :
    recGet r' "tags" = recGet r "tags" := by
  unfold bulkStep at h
  by_cases hv : (f, v).2 = Value.vNull ∨ (f, v).2 = Value.vStr ""
  · rw [if_pos hv] at h
    simp only [Except.ok.injEq, Prod.mk.injEq] at h
    rw [← h.1]
  · rw [if_neg hv] at h
    have hb : (f == "tags") = false := by simp [hf]
    rw [hb] at h
    dsimp only at h
    simp only [Except.ok.injEq, Prod.mk.injEq] at h
    rw [← h.1, recGet_recSet, if_neg (fun hh : "tags" = f => hf hh.symm)]

theorem bulkStep_tags_entry (r : Record) (b : Bool) (s : String)
    (r' : Record) (b' : Bool) (hs : s ≠ "") (hw : monsterTagsOk r)
    (h : bulkStep (r, b) ("tags", Value.vStr s) = .ok (r', b')) :
    (tagsOf r').toFinset = (tagsOf r).toFinset ∪ (parseTags s).toFinset
    ∧ (tagsOf r').Nodup ∧ monsterTagsOk r' := by
  unfold bulkStep at h
  rw [if_neg (by simp [hs])] at h
  have hb : (("tags" : String) == "tags") = true := by simp
  rw [hb] at h
  dsimp only at h
  rw [tagsOf_wf r hw] at h
  dsimp only at h
  by_cases hnil : pySetList (tagsOf r ++ parseTags s) = []
  · rw [if_pos hnil] at h
    simp only [Except.ok.injEq, Prod.mk.injEq] at h
    have hboth : tagsOf r = [] ∧ parseTags s = [] := by
      have := (List.dedup_eq_nil _).mp hnil
      exact List.append_eq_nil.mp this
    rw [← h.1, hboth.1, hboth.2]
    refine ⟨by simp, by simp, ?_⟩
    exact hw
  · rw [if_neg hnil] at h
    simp only [Except.ok.injEq, Prod.mk.injEq] at h
    have htg : recGet r' "tags" = some (.vList (pySetList (tagsOf r ++ parseTags s))) := by
      rw [← h.1, recGet_recSet, if_pos rfl]
    have htof : tagsOf r' = pySetList (tagsOf r ++ parseTags s) := by
      unfold tagsOf recGetD
      rw [htg]
      rfl
    refine ⟨?_, ?_, ?_⟩
    · rw [htof]
      unfold pySetList
      rw [toFinset_dedup', List.toFinset_append]
    · rw [htof]
      exact List.nodup_dedup _
    · unfold monsterTagsOk
      rw [htg]

theorem tags_congr (r1 r2 : Record) (h : recGet r1 "tags" = recGet r2 "tags") :
    monsterTagsOk r1 = monsterTagsOk r2 ∧ tagsOf r1 = tagsOf r2 := by
  unfold monsterTagsOk tagsOf recGetD
  rw [h]
  exact ⟨rfl, rfl⟩

theorem bulk_go_preserves_tags : ∀ (post : List (String × Value)) (r : Record) (b : Bool)
    (r' : Record) (b' : Bool), "tags" ∉ post.map Prod.fst →
    bulkChangeRecord.go post (r, b) = .ok (r', b') →
    recGet r' "tags" = recGet r "tags" := by
  intro post
  induction post with
  | nil =>
    intro r b r' b' _ h
    unfold bulkChangeRecord.go at h
    simp only [Except.ok.injEq, Prod.mk.injEq] at h
    rw [← h.1]
  | cons fv rest ih =>
    intro r b r' b' hmem h
    simp only [List.map_cons, List.mem_cons] at hmem
    push_neg at hmem
    obtain ⟨f, v⟩ := fv
    unfold bulkChangeRecord.go at h
    cases hs1 : bulkStep (r, b) (f, v) with
    | error e => rw [hs1] at h; cases h
    | ok acc1 =>
      rw [hs1] at h
      dsimp only at h
      obtain ⟨r1, b1⟩ := acc1
      have h1 := bulkStep_other_field_tags r b f v r1 b1 (fun hh => hmem.1 hh.symm) hs1
      have h2 := ih r1 b1 r' b' hmem.2 h
      rw [h2, h1]

theorem bulk_go_tags_union : ∀ (pre post : List (String × Value)) (s : String)
    (r : Record) (b : Bool) (r' : Record) (b' : Bool),
    "tags" ∉ pre.map Prod.fst → "tags" ∉ post.map Prod.fst → s ≠ "" → monsterTagsOk r →
    bulkChangeRecord.go (pre ++ ("tags", Value.vStr s) :: post) (r, b) = .ok (r', b') →
    (tagsOf r').toFinset = (tagsOf r).toFinset ∪ (parseTags s).toFinset
    ∧ (tagsOf r').Nodup := by
  intro pre
  induction pre with
  | nil =>
    intro post s r b r' b' _ hpost hs hw h
    simp only [List.nil_append] at h
    unfold bulkChangeRecord.go at h
    cases hs1 : bulkStep (r, b) ("tags", Value.vStr s) with
    | error e => rw [hs1] at h; cases h
    | ok acc1 =>
      rw [hs1] at h
      dsimp only at h
      obtain ⟨r1, b1⟩ := acc1
      obtain ⟨hu, hn, _⟩ := bulkStep_tags_entry r b s r1 b1 hs hw hs1
      have hpres := bulk_go_preserves_tags post r1 b1 r' b' hpost h
      have hcg := tags_congr r' r1 hpres
      rw [hcg.2]
      exact ⟨hu, hn⟩
  | cons fv pre' ih =>
    intro post s r b r' b' hpre hpost hs hw h
    simp only [List.map_cons, List.mem_cons] at hpre
    push_neg at hpre
    obtain ⟨f, v⟩ := fv
    simp only [List.cons_append] at h
    unfold bulkChangeRecord.go at h
    cases hs1 : bulkStep (r, b) (f, v) with
    | error e => rw [hs1] at h; cases h
    | ok acc1 =>
      rw [hs1] at h
      dsimp only at h
      obtain ⟨r1, b1⟩ := acc1
      have h1 := bulkStep_other_field_tags r b f v r1 b1 (fun hh => hpre.1 hh.symm) hs1
      have hcg := tags_congr r1 r h1
      have := ih post s r1 b1 r' b' hpre.2 hpost hs (hcg.1 ▸ hw) h
      rw [hcg.2] at this
      exact this

/-- C8: merging a non-empty comma-separated tags value into every selected
record yields, per record, a tags list whose underlying set is precisely the
union of the record's previous tags and the parsed tokens (split on commas,
trimmed, empty tokens dropped), with no duplicates — provided the batch holds
one `tags` entry and each record's existing tags field, when present, is a
list (the spec's data-model shape; anything else raises). -/
theorem bulk_tags_union (changes pre post : List (String × Value)) (s : String)
    (sel sel' : List Record) (c : Nat)
    (hch : changes = pre ++ ("tags", Value.vStr s) :: post)
    (hs : s ≠ "")
    (hpre : "tags" ∉ pre.map Prod.fst) (hpost : "tags" ∉ post.map Prod.fst)
    (hwf : ∀ r ∈ sel, monsterTagsOk r)
    (h : apply_bulk_changes changes sel = .ok (sel', c)) :
    ∀ p ∈ sel.zip sel',
      (tagsOf p.2).toFinset = (tagsOf p.1).toFinset ∪ (parseTags s).toFinset
      ∧ (tagsOf p.2).Nodup := by
  subst hch
  induction sel generalizing sel' c with
  | nil =>
    intro p hp
    unfold apply_bulk_changes at h
    simp only [Except.ok.injEq, Prod.mk.injEq] at h
    rw [← h.1] at hp
    cases hp
  | cons m rest ih =>
    intro p hp
    unfold apply_bulk_changes at h
    cases hb : bulkChangeRecord (pre ++ ("tags", Value.vStr s) :: post) m with
    | error e => rw [hb] at h; cases h
    | ok acc =>
      rw [hb] at h
      dsimp only at h
      obtain ⟨m', modif⟩ := acc
      cases hrest : apply_bulk_changes (pre ++ ("tags", Value.vStr s) :: post) rest with
      | error e => rw [hrest] at h; cases h
      | ok pr =>
        rw [hrest] at h
        dsimp only at h
        obtain ⟨ms, c0⟩ := pr
        simp only [Except.ok.injEq, Prod.mk.injEq] at h
        rw [← h.1] at hp
        simp only [List.zip_cons_cons, List.mem_cons] at hp
        rcases hp with hp | hp
        · subst hp
          exact bulk_go_tags_union pre post s m false m' modif hpre hpost hs
            (hwf m (List.mem_cons_self m rest)) hb
        · exact ih ms c0 (fun r hr => hwf r (List.mem_cons_of_mem m hr)) hrest p hp

/-- C8 witness: merging "fire, ice" into existing tags ["fire","flying"]
yields exactly the set {fire, flying, ice} with no duplicates. -/
theorem bulk_tags_union_witness :
    (tagsOf [("tags", Value.vList ["flying", "fire", "ice"])]).toFinset
      = (tagsOf [("tags", Value.vList ["fire", "flying"])]).toFinset
        ∪ (parseTags "fire, ice").toFinset
    ∧ (tagsOf [("tags", Value.vList ["flying", "fire", "ice"])]).Nodup :=
  bulk_tags_union [("tags", Value.vStr "fire, ice")] [] [] "fire, ice"
    [[("tags", Value.vList ["fire", "flying"])]]
    [[("tags", Value.vList ["flying", "fire", "ice"])]] 1
    rfl (by decide) (by decide) (by decide) (by decide) (by rfl)
    ([("tags", Value.vList ["fire", "flying"])], [("tags", Value.vList ["flying", "fire", "ice"])])
    (by decide)

/-! ## C7: the search step -/

theorem monsterSearchables_wf (r : Record) (h : monsterTagsOk r) :
    monsterSearchables r
      = .ok ((["name", "type", "alignment"].map
          (fun f => strLower (pyStr (recGetD r f (.vStr "")))))
        ++ (match recGet r "tags" with
            | some (.vList xs) => xs.map strLower
            | _ => [])) := by
  unfold monsterTagsOk at h
  unfold monsterSearchables
  cases hg : recGet r "tags" with
  | none => simp
  | some v =>
    rw [hg] at h
    cases v <;> simp_all [iterTagsLower]

theorem monster_search_test (r : Record) (sq : String) (h : monsterTagsOk r) :
    (match monsterSearchables r with
     | .ok ss => .ok (ss.any (fun t => strContains t sq))
     | .error e => .error e)
      = Except.ok (claimSearchKeep "alignment" r sq) := by
  rw [monsterSearchables_wf r h]
  dsimp only
  unfold claimSearchKeep
  congr 1
  rw [List.any_append]
  simp only [List.map_cons, List.map_nil, List.any_cons, List.any_nil, Bool.or_false]
  cases hg : recGet r "tags" with
  | none => simp [Bool.or_assoc]
  | some v =>
    cases v <;> simp [List.any_map, Function.comp_def, Bool.or_assoc]

theorem pyLowerE_wf (r : Record) (f : String) (h : strOrMissing r f) :
    pyLowerE (recGetD r f (.vStr ""))
      = .ok (strLower (pyStr (recGetD r f (.vStr "")))) := by
  unfold strOrMissing at h
  unfold recGetD
  cases hg : recGet r f with
  | none => rfl
  | some v =>
    rw [hg] at h
    cases v <;> simp_all [pyLowerE, pyStr]

theorem truthyListAny (r : Record) (f : String) (q : String) (h : listOrMissing r f) :
    (if isFalsy (recGetD r f .vNull) then Except.ok false
     else anyLowerContainsE (recGetD r f .vNull) q)
      = .ok (match recGet r f with
             | some (.vList xs) => xs.any (fun t => strContains (strLower t) q)
             | _ => false) := by
  unfold listOrMissing at h
  unfold recGetD
  cases hg : recGet r f with
  | none => rfl
  | some v =>
    rw [hg] at h
    cases v with
    | vList xs =>
      cases xs with
      | nil => rfl
      | cons a as => rfl
    | vStr s => simp_all
    | vNum n => simp_all
    | vBool b => simp_all
    | vNull => simp_all

theorem item_matches_search_wf (item : Record) (q : String) (h : itemSearchWf item) :
    item_matches_search item q
      = .ok (claimSearchKeep "description" item q || notesMatch item q) := by
  unfold itemSearchWf at h
  simp only [Bool.and_eq_true] at h
  obtain ⟨⟨⟨⟨hn, ht⟩, hd⟩, htg⟩, hns⟩ := h
  unfold item_matches_search
  rw [pyLowerE_wf item "name" hn]
  dsimp only
  by_cases ha : strContains (strLower (pyStr (recGetD item "name" (Value.vStr "")))) q
  · rw [if_pos ha]
    unfold claimSearchKeep
    simp [ha]
  · rw [if_neg ha]
    rw [pyLowerE_wf item "type" ht]
    dsimp only
    by_cases hb : strContains (strLower (pyStr (recGetD item "type" (Value.vStr "")))) q
    · rw [if_pos hb]
      unfold claimSearchKeep
      simp [hb]
    · rw [if_neg hb]
      rw [pyLowerE_wf item "description" hd]
      dsimp only
      by_cases hc : strContains (strLower (pyStr (recGetD item "description" (Value.vStr "")))) q
      · rw [if_pos hc]
        unfold claimSearchKeep
        simp [hc]
      · rw [if_neg hc]
        rw [truthyListAny item "tags" q htg]
        dsimp only
        unfold claimSearchKeep notesMatch
        simp only [ha, hb, hc, Bool.false_or]
        rw [truthyListAny item "notes" q hns]
        cases hT : (match recGet item "tags" with
          | some (Value.vList xs) => xs.any (fun t => strContains (strLower t) q)
          | _ => false) <;>
          simp [hT]

/-- C7 (amended): with a non-empty stripped query, the monster tool's search
keeps exactly the records where the lowered query occurs in the stringified
name, type or alignment, or in an entry of the tags list (records' tags,
when present, being lists); an empty query removes nothing.  The item tool's
per-record test matches the claim's four places with `description` as the
descriptive field, EXTENDED by a fifth place the claim omits: the entries of
the `notes` list. -/
theorem search_step_semantics :
    (∀ (q : String) (l : List Record), strLower (strTrim q) ≠ "" →
      (∀ r ∈ l, monsterTagsOk r) →
      searchStep q l
        = .ok (l.filter (fun r => claimSearchKeep "alignment" r (strLower (strTrim q)))))
    ∧ (∀ (q : String) (l : List Record), strLower (strTrim q) = "" → searchStep q l = .ok l)
    ∧ (∀ (item : Record) (q : String), itemSearchWf item →
      item_matches_search item q
        = .ok (claimSearchKeep "description" item q || notesMatch item q)) := by
  refine ⟨?_, ?_, fun item q h => item_matches_search_wf item q h⟩
  · intro q l hq hwf
    unfold searchStep
    dsimp only
    rw [if_neg hq]
    exact filterE_ok _ _ l (fun r hr => monster_search_test r (strLower (strTrim q)) (hwf r hr))
  · intro q l hq
    unfold searchStep
    dsimp only
    rw [if_pos hq]

/-- C7 witness: the stripped lowered query "drag" keeps exactly the Dragon,
the empty query keeps everything, and the item test agrees with the claim's
predicate on a notes-free record. -/
theorem search_step_semantics_witness :
    searchStep "  DRAG  " [[("name", Value.vStr "Dragon")], [("name", Value.vStr "Rat")]]
      = .ok ([[("name", Value.vStr "Dragon")], [("name", Value.vStr "Rat")]].filter
          (fun r => claimSearchKeep "alignment" r (strLower (strTrim "  DRAG  "))))
    ∧ searchStep "" [[("name", Value.vStr "Rat")]] = .ok [[("name", Value.vStr "Rat")]]
    ∧ item_matches_search [("name", Value.vStr "Longsword")] "sword"
      = .ok (claimSearchKeep "description" [("name", Value.vStr "Longsword")] "sword"
          || notesMatch [("name", Value.vStr "Longsword")] "sword") :=
  ⟨search_step_semantics.1 "  DRAG  " _ (by decide) (by decide),
   search_step_semantics.2.1 "" _ (by decide),
   search_step_semantics.2.2 _ "sword" (by decide)⟩

/-- C7 counterexample: an item whose only hit is inside its `notes` list is
kept by `item_matches_search`, while the claim's four searchable places
(name, type, descriptive field, tags) all miss — the two tools do not search
the same places, so the claim's "holds identically in both tools" fails. -/
theorem item_search_notes_divergence :
    item_matches_search [("notes", Value.vList ["dragon lore"])] "dragon" = .ok true
    ∧ claimSearchKeep "description" [("notes", Value.vList ["dragon lore"])] "dragon" = false :=
  ⟨rfl, rfl⟩

/-! ## C2: which inputs raise -/

theorem filterE_ok_of_forall {α : Type} (p : α → Except String Bool) :
    ∀ l : List α, (∀ a ∈ l, ∃ b, p a = .ok b) →
    ∃ l', filterE p l = .ok l' ∧ ∀ x ∈ l', x ∈ l := by
  intro l h
  induction l with
  | nil => exact ⟨[], rfl, by simp⟩
  | cons a as ih =>
    obtain ⟨b, hb⟩ := h a (List.mem_cons_self a as)
    obtain ⟨l', hl', hsub⟩ := ih (fun x hx => h x (List.mem_cons_of_mem a hx))
    refine ⟨if b then a :: l' else l', ?_, ?_⟩
    · simp only [filterE, hb, hl']
    · intro x hx
      cases b with
      | true =>
        rw [if_pos rfl] at hx
        rcases List.mem_cons.mp hx with h1 | h1
        · exact h1 ▸ List.mem_cons_self a as
        · exact List.mem_cons_of_mem a (hsub x h1)
      | false =>
        rw [if_neg Bool.false_ne_true] at hx
        exact List.mem_cons_of_mem a (hsub x hx)

theorem mapE_ok_of_forall {α β : Type} (f : α → Except String β) :
    ∀ l : List α, (∀ a ∈ l, ∃ b, f a = .ok b) →
    ∃ l', mapE f l = .ok l' := by
  intro l h
  induction l with
  | nil => exact ⟨[], rfl⟩
  | cons a as ih =>
    obtain ⟨b, hb⟩ := h a (List.mem_cons_self a as)
    obtain ⟨l', hl'⟩ := ih (fun x hx => h x (List.mem_cons_of_mem a hx))
    exact ⟨b :: l', by simp [mapE, hb, hl']⟩

theorem monsterSearchables_iterOk (r : Record) (h : tagsIterOk r) :
    ∃ ss, monsterSearchables r = .ok ss := by
  unfold tagsIterOk at h
  unfold monsterSearchables
  cases hg : recGet r "tags" with
  | none => exact ⟨_, rfl⟩
  | some v =>
    rw [hg] at h
    cases v <;> simp_all [iterTagsLower]

theorem searchStep_ok (q : String) (l : List Record)
    (h : strLower (strTrim q) ≠ "" → ∀ r ∈ l, tagsIterOk r) :
    ∃ l', searchStep q l = .ok l' ∧ ∀ x ∈ l', x ∈ l := by
  unfold searchStep
  dsimp only
  by_cases hq : strLower (strTrim q) = ""
  · rw [if_pos hq]
    exact ⟨l, rfl, fun x hx => hx⟩
  · rw [if_neg hq]
    apply filterE_ok_of_forall
    intro r hr
    obtain ⟨ss, hss⟩ := monsterSearchables_iterOk r (h hq r hr)
    exact ⟨_, by rw [hss]⟩

theorem applyCriterion_ok (f : String) (c : Criterion) (l : List Record)
    (h : ∀ r ∈ l, match c with
      | Criterion.range _ _ => numOrMissing r f
      | _ => True) :
    ∃ l', applyCriterion f c l = .ok l' ∧ ∀ x ∈ l', x ∈ l := by
  cases c with
  | range mn mx =>
    unfold applyCriterion
    apply filterE_ok_of_forall
    intro r hr
    exact ⟨_, rangeTest_ok f mn mx r (h r hr)⟩
  | containsC v => exact ⟨_, rfl, fun x hx => (List.mem_filter.mp hx).1⟩
  | equalsC v => exact ⟨_, rfl, fun x hx => (List.mem_filter.mp hx).1⟩
  | inactive => exact ⟨l, rfl, fun x hx => hx⟩

theorem criteriaStep_ok : ∀ (criteria : List (String × Criterion)) (l : List Record),
    (∀ fc ∈ criteria, ∀ r ∈ l, match fc.2 with
      | Criterion.range _ _ => numOrMissing r fc.1
      | _ => True) →
    ∃ l', criteriaStep criteria l = .ok l' ∧ ∀ x ∈ l', x ∈ l := by
  intro criteria
  induction criteria with
  | nil => exact fun l _ => ⟨l, rfl, fun x hx => hx⟩
  | cons fc rest ih =>
    intro l h
    obtain ⟨f, c⟩ := fc
    obtain ⟨l1, hl1, hsub1⟩ := applyCriterion_ok f c l (h (f, c) (List.mem_cons_self _ _))
    obtain ⟨l2, hl2, hsub2⟩ := ih l1
      (fun fc' hfc' r hr => h fc' (List.mem_cons_of_mem _ hfc') r (hsub1 r hr))
    refine ⟨l2, ?_, fun x hx => hsub1 x (hsub2 x hx)⟩
    unfold criteriaStep
    rw [hl1]
    dsimp only
    exact hl2

theorem sortStep_ok (col : String) (rev : Bool) (l : List Record)
    (h : ∀ r ∈ l, ∃ k, sortKeyFn col r = .ok k) :
    ∃ out, sortStep col rev l = .ok out := by
  unfold sortStep
  by_cases hcol : col ∈ recognizedSortFields
  · rw [if_pos hcol]
    cases rev with
    | true =>
      have : ∃ kl, buildKeyed col l.reverse = .ok kl := by
        apply mapE_ok_of_forall
        intro r hr
        obtain ⟨k, hk⟩ := h r (List.mem_reverse.mp hr)
        exact ⟨(k, r), by rw [hk]⟩
      obtain ⟨kl, hkl⟩ := this
      refine ⟨((sortS pairLe kl).map Prod.snd).reverse, ?_⟩
      rw [if_pos rfl, hkl]
    | false =>
      have : ∃ kl, buildKeyed col l = .ok kl := by
        apply mapE_ok_of_forall
        intro r hr
        obtain ⟨k, hk⟩ := h r hr
        exact ⟨(k, r), by rw [hk]⟩
      obtain ⟨kl, hkl⟩ := this
      refine ⟨(sortS pairLe kl).map Prod.snd, ?_⟩
      rw [if_neg Bool.false_ne_true, hkl]
  · rw [if_neg hcol]
    exact ⟨l, rfl⟩

/-- C2 (amended): a MISSING field never raises anywhere (defaults stand in:
0 for range and numeric sort keys, the empty string for search/contains/sort
strings, the empty list for tags) — formally, apply succeeds on every input
whose present values are shaped for the steps that touch them: iterable tags
wherever a non-empty query searches, numeric/boolean-or-missing values under
every range criterion, and a buildable sort key per record.  A MALFORMED
present value, however, raises instead of degrading: see the counterexample
(non-numeric string in the numeric sort field). -/
theorem apply_filters_and_sort_no_error (records : List Record) (q : String)
    (criteria : List (String × Criterion)) (col : String) (rev : Bool)
    (hwf : wfForApply records q criteria col) :
    ∃ out after, apply_filters_and_sort records q criteria col rev = .ok (out, after) := by
  obtain ⟨hq, hcrit, hsort⟩ := hwf
  obtain ⟨s1, hs1, hsub1⟩ := searchStep_ok q records hq
  obtain ⟨s2, hs2, hsub2⟩ := criteriaStep_ok criteria s1
    (fun fc hfc r hr => hcrit fc hfc r (hsub1 r hr))
  obtain ⟨out, hout⟩ := sortStep_ok col rev s2
    (fun r hr => hsort r (hsub1 r (hsub2 r hr)))
  unfold apply_filters_and_sort
  rw [hs1]
  dsimp only
  rw [hs2]
  dsimp only
  rw [hout]
  dsimp only
  exact ⟨out, _, rfl⟩

/-- C2 witness: a record with a missing challenge rating sails through
search, a 0..∞ range on the missing field, and the numeric sort. -/
theorem apply_filters_and_sort_no_error_witness :
    ∃ out after,
      apply_filters_and_sort [[("name", Value.vStr "Rat")]] "ra"
        [("challenge_rating", .range 0 .posInf)] "challenge_rating" false
      = .ok (out, after) :=
  apply_filters_and_sort_no_error [[("name", Value.vStr "Rat")]] "ra"
    [("challenge_rating", .range 0 .posInf)] "challenge_rating" false
    ⟨by intro _ r hr; fin_cases hr <;> decide,
     by intro fc hfc r hr; fin_cases hfc <;> fin_cases hr <;> decide,
     by intro r hr; fin_cases hr <;> exact ⟨SKey.num 0, by rfl⟩⟩

/-- C2 counterexample: a non-numeric string in the numeric sort field is not
replaced by a default — `float('abc')` raises, so the whole apply call
raises `ValueError` instead of returning a sequence. -/
theorem apply_raises_on_malformed :
    apply_filters_and_sort [[("challenge_rating", Value.vStr "abc")]] "" []
      "challenge_rating" false = .error "ValueError" :=
  rfl

/-! ## C6: the sort step -/

theorem charListLe_refl : ∀ cs : List Char, charListLe cs cs = true := by
  intro cs
  induction cs with
  | nil => rfl
  | cons c rest ih => simp [charListLe, ih]

theorem charListLe_total : ∀ x y : List Char, charListLe x y || charListLe y x := by
  intro x
  induction x with
  | nil => intro y; simp [charListLe]
  | cons a as ih =>
    intro y
    cases y with
    | nil => simp [charListLe]
    | cons b bs =>
      by_cases hab : a = b
      · subst hab
        simpa [charListLe] using ih bs
      · rcases lt_or_gt_of_ne hab with h | h
        · simp [charListLe, hab, h]
        · simp [charListLe, hab, Ne.symm hab, h, not_lt_of_gt h]

theorem charListLe_trans : ∀ x y z : List Char,
    charListLe x y = true → charListLe y z = true → charListLe x z = true := by
  intro x
  induction x with
  | nil => intro y z _ _; rfl
  | cons a as ih =>
    intro y z h1 h2
    cases y with
    | nil => simp [charListLe] at h1
    | cons b bs =>
      cases z with
      | nil => simp [charListLe] at h2
      | cons c cs =>
        simp only [charListLe] at h1 h2 ⊢
        by_cases hab : a = b <;> by_cases hbc : b = c
        · subst hab; subst hbc
          rw [if_pos rfl] at h1 h2 ⊢
          exact ih bs cs h1 h2
        · subst hab
          rw [if_pos rfl] at h1
          rw [if_neg hbc] at h2
          rw [if_neg hbc]
          exact h2
        · subst hbc
          rw [if_neg hab] at h1
          rw [if_neg hab]
          exact h1
        · rw [if_neg hab] at h1
          rw [if_neg hbc] at h2
          simp only [decide_eq_true_eq] at h1 h2
          have hac : a < c := lt_trans h1 h2
          rw [if_neg (fun h : a = c => absurd (h ▸ hac) (lt_irrefl c))]
          simp [hac]

theorem charListLe_antisymm : ∀ x y : List Char,
    charListLe x y = true → charListLe y x = true → x = y := by
  intro x
  induction x with
  | nil =>
    intro y _ h2
    cases y with
    | nil => rfl
    | cons b bs => simp [charListLe] at h2
  | cons a as ih =>
    intro y h1 h2
    cases y with
    | nil => simp [charListLe] at h1
    | cons b bs =>
      simp only [charListLe] at h1 h2
      by_cases hab : a = b
      · subst hab
        rw [if_pos rfl] at h1 h2
        rw [ih bs h1 h2]
      · rw [if_neg hab] at h1
        rw [if_neg (fun h : b = a => hab h.symm)] at h2
        simp only [decide_eq_true_eq] at h1 h2
        exact absurd (lt_trans h1 h2) (lt_irrefl a)

theorem skeyLe_refl : ∀ k : SKey, skeyLe k k = true := by
  intro k
  cases k with
  | num q => simp [skeyLe]
  | str s => simpa [skeyLe, strLeB] using charListLe_refl s.toList

theorem skeyLe_total : ∀ k₁ k₂ : SKey, skeyLe k₁ k₂ || skeyLe k₂ k₁ := by
  intro k₁ k₂
  cases k₁ <;> cases k₂ <;> simp [skeyLe, strLeB, le_total, charListLe_total]

theorem skeyLe_trans : ∀ k₁ k₂ k₃ : SKey,
    skeyLe k₁ k₂ = true → skeyLe k₂ k₃ = true → skeyLe k₁ k₃ = true := by
  intro k₁ k₂ k₃ h1 h2
  cases k₁ with
  | num a =>
    cases k₃ with
    | str c => rfl
    | num c =>
      cases k₂ with
      | num b =>
        simp only [skeyLe, decide_eq_true_eq] at h1 h2 ⊢
        exact le_trans h1 h2
      | str b => simp [skeyLe] at h2
  | str a =>
    cases k₂ with
    | num b => simp [skeyLe] at h1
    | str b =>
      cases k₃ with
      | num c => simp [skeyLe] at h2
      | str c =>
        simp only [skeyLe, strLeB] at h1 h2 ⊢
        exact charListLe_trans _ _ _ h1 h2

theorem skeyLe_antisymm : ∀ k₁ k₂ : SKey,
    skeyLe k₁ k₂ = true → skeyLe k₂ k₁ = true → k₁ = k₂ := by
  intro k₁ k₂ h1 h2
  cases k₁ with
  | num a =>
    cases k₂ with
    | num b =>
      simp only [skeyLe, decide_eq_true_eq] at h1 h2
      exact congrArg SKey.num (le_antisymm h1 h2)
    | str b => simp [skeyLe] at h2
  | str a =>
    cases k₂ with
    | num b => simp [skeyLe] at h1
    | str b =>
      simp only [skeyLe, strLeB] at h1 h2
      exact congrArg SKey.str (String.ext (charListLe_antisymm _ _ h1 h2))

theorem insertS_perm {α : Type} (le : α → α → Bool) (x : α) :
    ∀ l : List α, (insertS le x l).Perm (x :: l) := by
  intro l
  induction l with
  | nil => exact List.Perm.refl _
  | cons y ys ih =>
    unfold insertS
    by_cases h : le x y
    · rw [if_pos h]
    · rw [if_neg h]
      exact (List.Perm.cons y ih).trans (List.Perm.swap x y ys)

theorem sortS_perm {α : Type} (le : α → α → Bool) :
    ∀ l : List α, (sortS le l).Perm l := by
  intro l
  induction l with
  | nil => exact List.Perm.refl _
  | cons x xs ih =>
    unfold sortS
    exact (insertS_perm le x (sortS le xs)).trans (List.Perm.cons x ih)

theorem mem_insertS {α : Type} (le : α → α → Bool) (x z : α) (l : List α) :
    z ∈ insertS le x l ↔ z = x ∨ z ∈ l := by
  rw [(insertS_perm le x l).mem_iff]
  simp

theorem insertS_sorted {α : Type} (le : α → α → Bool)
    (htot : ∀ a b, le a b || le b a)
    (htr : ∀ a b c, le a b = true → le b c = true → le a c = true)
    (x : α) : ∀ l : List α, l.Pairwise (fun a b => le a b = true) →
    (insertS le x l).Pairwise (fun a b => le a b = true) := by
  intro l
  induction l with
  | nil => intro _; simp [insertS]
  | cons y ys ih =>
    intro hp
    rw [List.pairwise_cons] at hp
    unfold insertS
    by_cases h : le x y
    · rw [if_pos h]
      refine List.Pairwise.cons ?_ (List.Pairwise.cons hp.1 hp.2)
      intro z hz
      rcases List.mem_cons.mp hz with hz | hz
      · exact hz ▸ h
      · exact htr x y z h (hp.1 z hz)
    · rw [if_neg h]
      refine List.Pairwise.cons ?_ (ih hp.2)
      intro z hz
      rcases (mem_insertS le x z ys).mp hz with hz | hz
      · rw [hz]
        have htot' := htot x y
        have hxy : le x y = false := by
          cases hh : le x y
          · rfl
          · exact absurd hh h
        rw [hxy] at htot'
        simpa using htot'
      · exact hp.1 z hz

theorem sortS_sorted {α : Type} (le : α → α → Bool)
    (htot : ∀ a b, le a b || le b a)
    (htr : ∀ a b c, le a b = true → le b c = true → le a c = true) :
    ∀ l : List α, (sortS le l).Pairwise (fun a b => le a b = true) := by
  intro l
  induction l with
  | nil => simp [sortS]
  | cons x xs ih =>
    unfold sortS
    exact insertS_sorted le htot htr x (sortS le xs) ih

theorem filter_insertS_pos {α : Type} (le : α → α → Bool) (p : α → Bool) (x : α)
    (hx : p x = true) (hle : ∀ y, p y = true → le x y = true) :
    ∀ l : List α, (insertS le x l).filter p = x :: l.filter p := by
  intro l
  induction l with
  | nil => simp [insertS, hx]
  | cons y ys ih =>
    unfold insertS
    by_cases h : le x y
    · rw [if_pos h]
      simp [List.filter_cons, hx]
    · rw [if_neg h]
      have hpy : p y = false := by
        cases hyp : p y with
        | false => rfl
        | true => exact absurd (hle y hyp) h
      simp [List.filter_cons, hpy, ih]

theorem filter_insertS_neg {α : Type} (le : α → α → Bool) (p : α → Bool) (x : α)
    (hx : p x = false) :
    ∀ l : List α, (insertS le x l).filter p = l.filter p := by
  intro l
  induction l with
  | nil => simp [insertS, hx]
  | cons y ys ih =>
    unfold insertS
    by_cases h : le x y
    · rw [if_pos h]
      simp [List.filter_cons, hx]
    · rw [if_neg h]
      cases hyp : p y with
      | false => simp [List.filter_cons, hyp, ih]
      | true => simp [List.filter_cons, hyp, ih]

theorem sortS_stable {α : Type} (le : α → α → Bool) (p : α → Bool)
    (hp : ∀ a b, p a = true → p b = true → le a b = true) :
    ∀ l : List α, (sortS le l).filter p = l.filter p := by
  intro l
  induction l with
  | nil => rfl
  | cons x xs ih =>
    unfold sortS
    cases hx : p x with
    | true =>
      rw [filter_insertS_pos le p x hx (fun y hy => hp x y hx hy), ih]
      simp [List.filter_cons, hx]
    | false =>
      rw [filter_insertS_neg le p x hx, ih]
      simp [List.filter_cons, hx]

theorem sorted_unique {α : Type} (le : α → α → Bool) :
    ∀ l₁ l₂ : List α, l₁.Perm l₂ →
    l₁.Pairwise (fun a b => le a b = true) →
    l₂.Pairwise (fun a b => le a b = true) →
    (∀ a b, a ∈ l₁ → b ∈ l₁ → le a b = true → le b a = true → a = b) →
    l₁ = l₂ := by
  intro l₁
  induction l₁ with
  | nil =>
    intro l₂ hperm _ _ _
    exact (hperm.symm.eq_nil).symm ▸ rfl
  | cons a t₁ ih =>
    intro l₂ hperm hs₁ hs₂ hanti
    cases l₂ with
    | nil => exact absurd hperm.eq_nil (by simp)
    | cons b t₂ =>
      have hab : a = b := by
        by_cases h : a = b
        · exact h
        · have hain : a ∈ b :: t₂ := hperm.mem_iff.mp (List.mem_cons_self a t₁)
          have hbin : b ∈ a :: t₁ := hperm.symm.mem_iff.mp (List.mem_cons_self b t₂)
          have ha2 : a ∈ t₂ := by
            rcases List.mem_cons.mp hain with h' | h'
            · exact absurd h' h
            · exact h'
          have hb1 : b ∈ t₁ := by
            rcases List.mem_cons.mp hbin with h' | h'
            · exact absurd h'.symm h
            · exact h'
          have hle1 : le a b = true := (List.pairwise_cons.mp hs₁).1 b hb1
          have hle2 : le b a = true := (List.pairwise_cons.mp hs₂).1 a ha2
          exact hanti a b (List.mem_cons_self a t₁) (List.mem_cons_of_mem a hb1) hle1 hle2
      subst hab
      have hperm' : t₁.Perm t₂ := hperm.cons_inv
      rw [ih t₂ hperm' (List.pairwise_cons.mp hs₁).2 (List.pairwise_cons.mp hs₂).2
        (fun x y hx hy => hanti x y (List.mem_cons_of_mem a hx) (List.mem_cons_of_mem a hy))]

theorem mapE_append_ok {α β : Type} (f : α → Except String β) :
    ∀ (xs ys : List α) (bs cs : List β), mapE f xs = .ok bs → mapE f ys = .ok cs →
    mapE f (xs ++ ys) = .ok (bs ++ cs) := by
  intro xs
  induction xs with
  | nil =>
    intro ys bs cs h1 h2
    unfold mapE at h1
    simp only [Except.ok.injEq] at h1
    rw [← h1]
    simpa using h2
  | cons a as ih =>
    intro ys bs cs h1 h2
    unfold mapE at h1
    cases hf : f a with
    | error e => rw [hf] at h1; cases h1
    | ok b =>
      rw [hf] at h1
      dsimp only at h1
      cases hm : mapE f as with
      | error e => rw [hm] at h1; cases h1
      | ok bs' =>
        rw [hm] at h1
        dsimp only at h1
        simp only [Except.ok.injEq] at h1
        rw [← h1]
        have := ih ys bs' cs hm h2
        simp only [List.cons_append]
        unfold mapE
        rw [hf]
        dsimp only
        rw [this]

theorem mapE_reverse_ok {α β : Type} (f : α → Except String β) :
    ∀ (l : List α) (bs : List β), mapE f l = .ok bs → mapE f l.reverse = .ok bs.reverse := by
  intro l
  induction l with
  | nil =>
    intro bs h
    unfold mapE at h
    simp only [Except.ok.injEq] at h
    rw [← h]
    rfl
  | cons a as ih =>
    intro bs h
    unfold mapE at h
    cases hf : f a with
    | error e => rw [hf] at h; cases h
    | ok b =>
      rw [hf] at h
      dsimp only at h
      cases hm : mapE f as with
      | error e => rw [hm] at h; cases h
      | ok bs' =>
        rw [hm] at h
        dsimp only at h
        simp only [Except.ok.injEq] at h
        rw [← h]
        simp only [List.reverse_cons]
        refine mapE_append_ok f as.reverse [a] bs'.reverse [b] (ih bs' hm) ?_
        unfold mapE
        rw [hf]
        rfl

theorem buildKeyed_char (col : String) :
    ∀ (l : List Record) (kl : List (SKey × Record)), buildKeyed col l = .ok kl →
    kl.map Prod.snd = l ∧ ∀ p ∈ kl, sortKeyFn col p.2 = .ok p.1 := by
  intro l
  induction l with
  | nil =>
    intro kl h
    unfold buildKeyed mapE at h
    simp only [Except.ok.injEq] at h
    rw [← h]
    exact ⟨rfl, by simp⟩
  | cons r rest ih =>
    intro kl h
    unfold buildKeyed mapE at h
    cases hk : sortKeyFn col r with
    | error e => rw [hk] at h; cases h
    | ok k =>
      rw [hk] at h
      dsimp only at h
      cases hm : mapE (fun r => match sortKeyFn col r with
          | .ok k => Except.ok (k, r)
          | .error e => Except.error e) rest with
      | error e => rw [hm] at h; cases h
      | ok bs =>
        rw [hm] at h
        dsimp only at h
        simp only [Except.ok.injEq] at h
        obtain ⟨hmap, hmem⟩ := ih bs hm
        rw [← h]
        constructor
        · simp [hmap]
        · intro p hp
          rcases List.mem_cons.mp hp with hp | hp
          · rw [hp]
            exact hk
          · exact hmem p hp

theorem buildKeyed_reverse (col : String) (l : List Record) (kl : List (SKey × Record))
    (h : buildKeyed col l = .ok kl) :
    buildKeyed col l.reverse = .ok kl.reverse :=
  mapE_reverse_ok _ l kl h

theorem pairLe_total : ∀ a b : SKey × Record, pairLe a b || pairLe b a :=
  fun a b => skeyLe_total a.1 b.1

theorem pairLe_trans : ∀ a b c : SKey × Record,
    pairLe a b = true → pairLe b c = true → pairLe a c = true :=
  fun a b c h1 h2 => skeyLe_trans a.1 b.1 c.1 h1 h2

theorem sortStep_false_eq (col : String) (l : List Record) (kl : List (SKey × Record))
    (hcol : col ∈ recognizedSortFields) (hb : buildKeyed col l = .ok kl) :
    sortStep col false l = .ok ((sortS pairLe kl).map Prod.snd) := by
  unfold sortStep
  rw [if_pos hcol, if_neg Bool.false_ne_true, hb]

theorem sortStep_true_eq (col : String) (l : List Record) (kl : List (SKey × Record))
    (hcol : col ∈ recognizedSortFields) (hb : buildKeyed col l.reverse = .ok kl) :
    sortStep col true l = .ok (((sortS pairLe kl).map Prod.snd).reverse) := by
  unfold sortStep
  rw [if_pos hcol, if_pos rfl, hb]

theorem sorted_map_snd (col : String) (kl : List (SKey × Record))
    (hchar : ∀ p ∈ kl, sortKeyFn col p.2 = .ok p.1) :
    ((sortS pairLe kl).map Prod.snd).Pairwise (recKeyLe col) := by
  have hs := sortS_sorted pairLe pairLe_total pairLe_trans kl
  have hmem : ∀ p ∈ sortS pairLe kl, sortKeyFn col p.2 = .ok p.1 :=
    fun p hp => hchar p ((sortS_perm pairLe kl).mem_iff.mp hp)
  rw [List.pairwise_map]
  refine hs.imp_of_mem ?_
  intro a b ha hb hR k₁ k₂ h₁ h₂
  have e1 : a.1 = k₁ := Except.ok.inj ((hmem a ha).symm.trans h₁)
  have e2 : b.1 = k₂ := Except.ok.inj ((hmem b hb).symm.trans h₂)
  rw [← e1, ← e2]
  exact hR

theorem filter_chain (col : String) (k : SKey) (kl : List (SKey × Record))
    (hchar : ∀ p ∈ kl, sortKeyFn col p.2 = .ok p.1) :
    ((sortS pairLe kl).map Prod.snd).filter (keyIs col k)
      = (kl.map Prod.snd).filter (keyIs col k) := by
  have hmem : ∀ p ∈ sortS pairLe kl, sortKeyFn col p.2 = .ok p.1 :=
    fun p hp => hchar p ((sortS_perm pairLe kl).mem_iff.mp hp)
  have hcongr : ∀ (m : List (SKey × Record)), (∀ p ∈ m, sortKeyFn col p.2 = .ok p.1) →
      m.filter (keyIs col k ∘ Prod.snd) = m.filter (fun pr => decide (pr.1 = k)) := by
    intro m hm
    apply List.filter_congr
    intro pr hpr
    have := hm pr hpr
    simp only [Function.comp_apply, keyIs, this]
  rw [List.filter_map, hcongr (sortS pairLe kl) hmem,
    sortS_stable pairLe (fun pr => decide (pr.1 = k)) ?hp kl,
    ← hcongr kl hchar, ← List.filter_map]
  case hp =>
    intro a b ha hb
    simp only [decide_eq_true_eq] at ha hb
    unfold pairLe
    rw [ha, hb]
    exact skeyLe_refl k

theorem sortStep_stable (col : String) (rev : Bool) (l out : List Record) (k : SKey)
    (h : sortStep col rev l = .ok out) :
    out.filter (keyIs col k) = l.filter (keyIs col k) := by
  unfold sortStep at h
  by_cases hcol : col ∈ recognizedSortFields
  · rw [if_pos hcol] at h
    cases rev with
    | false =>
      rw [if_neg Bool.false_ne_true] at h
      cases hb : buildKeyed col l with
      | error e => rw [hb] at h; cases h
      | ok kl =>
        rw [hb] at h
        dsimp only at h
        simp only [Except.ok.injEq] at h
        obtain ⟨hmap, hchar⟩ := buildKeyed_char col l kl hb
        rw [← h, filter_chain col k kl hchar, hmap]
    | true =>
      rw [if_pos rfl] at h
      cases hb : buildKeyed col l.reverse with
      | error e => rw [hb] at h; cases h
      | ok kl =>
        rw [hb] at h
        dsimp only at h
        simp only [Except.ok.injEq] at h
        obtain ⟨hmap, hchar⟩ := buildKeyed_char col l.reverse kl hb
        rw [← h, List.filter_reverse, filter_chain col k kl hchar, hmap,
          List.filter_reverse, List.reverse_reverse]
  · rw [if_neg hcol] at h
    simp only [Except.ok.injEq] at h
    rw [← h]

theorem sortStep_reverse_noties (col : String) (l out : List Record)
    (kl : List (SKey × Record)) (hcol : col ∈ recognizedSortFields)
    (hb : buildKeyed col l = .ok kl) (hnd : (kl.map Prod.fst).Nodup)
    (h : sortStep col false l = .ok out) :
    sortStep col true l = .ok out.reverse := by
  have hout : out = (sortS pairLe kl).map Prod.snd := by
    have := sortStep_false_eq col l kl hcol hb
    rw [h] at this
    exact Except.ok.inj this
  have hrev := buildKeyed_reverse col l kl hb
  have heq : sortS pairLe kl.reverse = sortS pairLe kl := by
    apply sorted_unique pairLe
    · exact (sortS_perm pairLe kl.reverse).trans
        ((kl.reverse_perm).trans (sortS_perm pairLe kl).symm)
    · exact sortS_sorted pairLe pairLe_total pairLe_trans kl.reverse
    · exact sortS_sorted pairLe pairLe_total pairLe_trans kl
    · intro a b ha hb' hle1 hle2
      have hmem : ∀ p ∈ sortS pairLe kl.reverse, p ∈ kl := fun p hp =>
        List.mem_reverse.mp ((sortS_perm pairLe kl.reverse).mem_iff.mp hp)
      have hk : a.1 = b.1 := skeyLe_antisymm a.1 b.1 hle1 hle2
      exact List.inj_on_of_nodup_map hnd (hmem a ha) (hmem b hb') hk
  rw [sortStep_true_eq col l kl.reverse hcol hrev, heq, hout]

/-- C6: the sort step reorders only for a recognized sortable column; the
numeric columns take the parsed number with a literal 0 fallback exactly on
the empty string, every other column takes the lower-cased stringified value
with the empty string standing in for a missing field; the output is sorted
(ascending, or descending when the reverse flag is set), the sort is stable
in both directions (records with equal keys keep their pre-sort relative
order), and with pairwise-distinct keys flipping the flag yields the exact
reverse sequence. -/
theorem sort_step_spec :
    (∀ (col : String) (rev : Bool) (l : List Record),
      col ∉ recognizedSortFields → sortStep col rev l = .ok l)
    ∧ (∀ r : Record, recGetD r "challenge_rating" (.vStr "") = .vStr "" →
        sortKeyFn "challenge_rating" r = .ok (.num 0))
    ∧ (∀ r : Record, recGetD r "armor_class" (.vStr "") = .vStr "" →
        sortKeyFn "armor_class" r = .ok (.num 0))
    ∧ (∀ (col : String) (r : Record), col ≠ "challenge_rating" → col ≠ "armor_class" →
        col ≠ "hit_points" →
        sortKeyFn col r = .ok (.str (strLower (pyStr (recGetD r col (.vStr ""))))))
    ∧ (∀ (col : String) (l out : List Record), col ∈ recognizedSortFields →
        sortStep col false l = .ok out → out.Pairwise (recKeyLe col))
    ∧ (∀ (col : String) (l out : List Record), col ∈ recognizedSortFields →
        sortStep col true l = .ok out → out.Pairwise (fun r₁ r₂ => recKeyLe col r₂ r₁))
    ∧ (∀ (col : String) (rev : Bool) (l out : List Record) (k : SKey),
        sortStep col rev l = .ok out →
        out.filter (keyIs col k) = l.filter (keyIs col k))
    ∧ (∀ (col : String) (l out : List Record) (kl : List (SKey × Record)),
        col ∈ recognizedSortFields → buildKeyed col l = .ok kl →
        (kl.map Prod.fst).Nodup → sortStep col false l = .ok out →
        sortStep col true l = .ok out.reverse) := by
  refine ⟨?_, ?_, ?_, ?_, ?_, ?_, ?_, ?_⟩
  · intro col rev l hcol
    unfold sortStep
    rw [if_neg hcol]
  · intro r hv
    unfold sortKeyFn
    dsimp only
    rw [if_pos rfl, if_pos hv]
  · intro r hv
    unfold sortKeyFn
    dsimp only
    rw [if_neg (by decide), if_pos (Or.inl rfl), if_pos hv]
  · intro col r h1 h2 h3
    unfold sortKeyFn
    dsimp only
    rw [if_neg h1, if_neg (by rintro (h | h) <;> [exact h2 h; exact h3 h])]
  · intro col l out hcol h
    unfold sortStep at h
    rw [if_pos hcol, if_neg Bool.false_ne_true] at h
    cases hb : buildKeyed col l with
    | error e => rw [hb] at h; cases h
    | ok kl =>
      rw [hb] at h
      dsimp only at h
      simp only [Except.ok.injEq] at h
      rw [← h]
      exact sorted_map_snd col kl (buildKeyed_char col l kl hb).2
  · intro col l out hcol h
    unfold sortStep at h
    rw [if_pos hcol, if_pos rfl] at h
    cases hb : buildKeyed col l.reverse with
    | error e => rw [hb] at h; cases h
    | ok kl =>
      rw [hb] at h
      dsimp only at h
      simp only [Except.ok.injEq] at h
      rw [← h, List.pairwise_reverse]
      exact sorted_map_snd col kl (buildKeyed_char col l.reverse kl hb).2
  · intro col rev l out k h
    exact sortStep_stable col rev l out k h
  · intro col l out kl hcol hb hnd h
    exact sortStep_reverse_noties col l out kl hcol hb hnd h

/-- C6 witness: the spec's own scenario — three monsters sorted by challenge
rating descending come out Dragon, Goblin, Rat (the exact reverse of the
ascending result, keys being distinct), an unrecognized column leaves the
list alone, the empty-string and missing-field fallbacks produce the
documented keys, and a tie on hit points keeps pre-sort order. -/
theorem sort_step_spec_witness :
    sortStep "xyz" false [[("name", Value.vStr "b")]] = .ok [[("name", Value.vStr "b")]]
    ∧ sortKeyFn "challenge_rating" [("challenge_rating", Value.vStr "")] = .ok (.num 0)
    ∧ sortKeyFn "armor_class" [("armor_class", Value.vStr "")] = .ok (.num 0)
    ∧ sortKeyFn "name" [] = .ok (.str (strLower (pyStr (recGetD [] "name" (.vStr "")))))
    ∧ ([[("name", Value.vStr "Rat"), ("challenge_rating", Value.vNum 0)],
        [("name", Value.vStr "Goblin"), ("challenge_rating", Value.vNum (mkRat 1 4))],
        [("name", Value.vStr "Dragon"), ("challenge_rating", Value.vNum 24)]] :
        List Record).Pairwise (recKeyLe "challenge_rating")
    ∧ sortStep "challenge_rating" true
        [[("name", Value.vStr "Goblin"), ("challenge_rating", Value.vNum (mkRat 1 4))],
         [("name", Value.vStr "Dragon"), ("challenge_rating", Value.vNum 24)],
         [("name", Value.vStr "Rat"), ("challenge_rating", Value.vNum 0)]]
      = .ok ([[("name", Value.vStr "Rat"), ("challenge_rating", Value.vNum 0)],
              [("name", Value.vStr "Goblin"), ("challenge_rating", Value.vNum (mkRat 1 4))],
              [("name", Value.vStr "Dragon"), ("challenge_rating", Value.vNum 24)]] :
          List Record).reverse
    ∧ ([[("name", Value.vStr "A"), ("hit_points", Value.vNum 5)],
        [("name", Value.vStr "B"), ("hit_points", Value.vNum 5)],
        [("name", Value.vStr "C"), ("hit_points", Value.vNum 3)]] :
        List Record).filter (keyIs "hit_points" (.num 5))
      = ([[("name", Value.vStr "C"), ("hit_points", Value.vNum 3)],
          [("name", Value.vStr "A"), ("hit_points", Value.vNum 5)],
          [("name", Value.vStr "B"), ("hit_points", Value.vNum 5)]] :
          List Record).filter (keyIs "hit_points" (.num 5)) :=
  ⟨sort_step_spec.1 "xyz" false [[("name", Value.vStr "b")]] (by decide),
   sort_step_spec.2.1 [("challenge_rating", Value.vStr "")] (by rfl),
   sort_step_spec.2.2.1 [("armor_class", Value.vStr "")] (by rfl),
   sort_step_spec.2.2.2.1 "name" [] (by decide) (by decide) (by decide),
   sort_step_spec.2.2.2.2.1 "challenge_rating"
     [[("name", Value.vStr "Goblin"), ("challenge_rating", Value.vNum (mkRat 1 4))],
      [("name", Value.vStr "Dragon"), ("challenge_rating", Value.vNum 24)],
      [("name", Value.vStr "Rat"), ("challenge_rating", Value.vNum 0)]]
     [[("name", Value.vStr "Rat"), ("challenge_rating", Value.vNum 0)],
      [("name", Value.vStr "Goblin"), ("challenge_rating", Value.vNum (mkRat 1 4))],
      [("name", Value.vStr "Dragon"), ("challenge_rating", Value.vNum 24)]]
     (by decide) (by rfl),
   sort_step_spec.2.2.2.2.2.2.2 "challenge_rating"
     [[("name", Value.vStr "Goblin"), ("challenge_rating", Value.vNum (mkRat 1 4))],
      [("name", Value.vStr "Dragon"), ("challenge_rating", Value.vNum 24)],
      [("name", Value.vStr "Rat"), ("challenge_rating", Value.vNum 0)]]
     [[("name", Value.vStr "Rat"), ("challenge_rating", Value.vNum 0)],
      [("name", Value.vStr "Goblin"), ("challenge_rating", Value.vNum (mkRat 1 4))],
      [("name", Value.vStr "Dragon"), ("challenge_rating", Value.vNum 24)]]
     [(.num (mkRat 1 4), [("name", Value.vStr "Goblin"), ("challenge_rating", Value.vNum (mkRat 1 4))]),
      (.num 24, [("name", Value.vStr "Dragon"), ("challenge_rating", Value.vNum 24)]),
      (.num 0, [("name", Value.vStr "Rat"), ("challenge_rating", Value.vNum 0)])]
     (by decide) (by rfl) (by decide) (by rfl),
   (sort_step_spec.2.2.2.2.2.2.1 "hit_points" false
     [[("name", Value.vStr "A"), ("hit_points", Value.vNum 5)],
      [("name", Value.vStr "B"), ("hit_points", Value.vNum 5)],
      [("name", Value.vStr "C"), ("hit_points", Value.vNum 3)]]
     [[("name", Value.vStr "C"), ("hit_points", Value.vNum 3)],
      [("name", Value.vStr "A"), ("hit_points", Value.vNum 5)],
      [("name", Value.vStr "B"), ("hit_points", Value.vNum 5)]]
     (.num 5) (by rfl)).symm⟩
